import Mathlib

/-!
# Verification of the `brd2svg.py` geometry / coordinate pipeline

A shallow embedding of `src/brd2svg/brd2svg.py` (Eagle `.brd` → composite
SVG breadboard converter) together with proofs about the claims of its
specification.

Embedding conventions:

* Python `float` values are modelled as exact rationals (`ℚ`).  This
  idealises IEEE doubles; all concrete inputs used below are small decimal
  values that are handled identically by both.
* Python strings are modelled as `List Char` (for path data and numeric
  literals) or `String` (for tags and attribute values).
* In-place mutation of XML trees is modelled by explicit state passing:
  a function that mutates a tree returns the tree's final value.
* Functions whose Python counterpart can raise an exception return
  `Except PyErr _`.
* Recursive scanners are written with an explicit fuel argument (with a
  stability lemma) so that every definition is structural and evaluates
  inside the kernel.
-/

namespace Brd2Svg

/-! ## Decimal digit strings -/

/-- The character of the decimal digit `d` (for `d < 10`). -/
def digitChar (d : Nat) : Char := Char.ofNat (48 + d)

/-- Numeric value of a decimal digit character. -/
def digitVal (c : Char) : Nat := c.toNat - 48

/-- Value of a (big-endian) string of decimal digit characters. -/
def digitsToNat (l : List Char) : Nat := l.foldl (fun a c => 10 * a + digitVal c) 0

/-- Fueled decimal rendering of a natural number (most significant digit
first); `natDigits` below supplies sufficient fuel. -/
def natDigitsAux : Nat → Nat → List Char
  | 0, _ => []
  | fuel + 1, n =>
    if n < 10 then [digitChar n] else natDigitsAux fuel (n / 10) ++ [digitChar (n % 10)]

/-- Decimal rendering of a natural number, as produced by Python string
formatting of a nonnegative integer (no leading zeros, `0` renders as "0"). -/
def natDigits (n : Nat) : List Char := natDigitsAux (n + 1) n

lemma natDigitsAux_stable : ∀ f₁ : Nat, ∀ f₂ n : Nat, n < f₁ → n < f₂ →
    natDigitsAux f₁ n = natDigitsAux f₂ n := by
  intro f₁
  induction f₁ with
  | zero => intro f₂ n h1; omega
  | succ g ih =>
    intro f₂ n h1 h2
    cases f₂ with
    | zero => omega
    | succ h =>
      simp only [natDigitsAux]
      by_cases hn : n < 10
      · simp [hn]
      · simp only [if_neg hn]
        have hd : n / 10 < n := Nat.div_lt_self (by omega) (by omega)
        rw [ih h (n / 10) (by omega) (by omega)]

lemma natDigits_unfold (n : Nat) :
    natDigits n = if n < 10 then [digitChar n]
                  else natDigits (n / 10) ++ [digitChar (n % 10)] := by
  show natDigitsAux (n + 1) n = _
  by_cases hn : n < 10
  · simp [natDigitsAux, hn]
  · have hd : n / 10 < n := Nat.div_lt_self (by omega) (by omega)
    simp only [natDigitsAux, if_neg hn]
    rw [natDigitsAux_stable n (n / 10 + 1) (n / 10) (by omega) (by omega)]
    rfl

lemma digitChar_isDigit {d : Nat} (h : d < 10) : (digitChar d).isDigit = true := by
  interval_cases d <;> decide

lemma digitVal_digitChar {d : Nat} (h : d < 10) : digitVal (digitChar d) = d := by
  interval_cases d <;> decide

lemma natDigits_ne_nil (n : Nat) : natDigits n ≠ [] := by
  rw [natDigits_unfold]
  by_cases hn : n < 10 <;> simp [hn]

lemma natDigits_all_digit (n : Nat) : ∀ c ∈ natDigits n, c.isDigit = true := by
  induction n using Nat.strong_induction_on with
  | _ n ih =>
    rw [natDigits_unfold]
    by_cases hn : n < 10
    · simp only [if_pos hn, List.mem_singleton]
      rintro c rfl
      exact digitChar_isDigit hn
    · simp only [if_neg hn]
      intro c hc
      rcases List.mem_append.mp hc with h | h
      · exact ih (n / 10) (Nat.div_lt_self (by omega) (by omega)) c h
      · rcases List.mem_singleton.mp h with rfl
        exact digitChar_isDigit (Nat.mod_lt _ (by omega))

lemma digitsToNat_append_single (l : List Char) (c : Char) :
    digitsToNat (l ++ [c]) = 10 * digitsToNat l + digitVal c := by
  simp [digitsToNat, List.foldl_append]

lemma digitsToNat_natDigits (n : Nat) : digitsToNat (natDigits n) = n := by
  induction n using Nat.strong_induction_on with
  | _ n ih =>
    rw [natDigits_unfold]
    by_cases hn : n < 10
    · simp only [if_pos hn]
      show digitsToNat ([] ++ [digitChar n]) = n
      rw [digitsToNat_append_single]
      simp [digitsToNat, digitVal_digitChar hn]
    · simp only [if_neg hn]
      rw [digitsToNat_append_single, ih (n / 10) (Nat.div_lt_self (by omega) (by omega)),
        digitVal_digitChar (Nat.mod_lt _ (by omega))]
      omega

/-- The three zero-padded fractional digits emitted by `f"{x:.3f}"` for a
fractional part `m < 1000`. -/
def pad3 (m : Nat) : List Char :=
  [digitChar (m / 100), digitChar (m / 10 % 10), digitChar (m % 10)]

lemma pad3_all_digit {m : Nat} (h : m < 1000) : ∀ c ∈ pad3 m, c.isDigit = true := by
  intro c hc
  simp only [pad3, List.mem_cons, List.not_mem_nil, or_false] at hc
  rcases hc with rfl | rfl | rfl
  · exact digitChar_isDigit (by omega)
  · exact digitChar_isDigit (Nat.mod_lt _ (by omega))
  · exact digitChar_isDigit (Nat.mod_lt _ (by omega))

lemma pad3_ne_nil (m : Nat) : pad3 m ≠ [] := by simp [pad3]

lemma digitsToNat_pad3 {m : Nat} (h : m < 1000) : digitsToNat (pad3 m) = m := by
  show digitsToNat ([digitChar (m / 100), digitChar (m / 10 % 10)] ++ [digitChar (m % 10)]) = m
  rw [digitsToNat_append_single]
  have h2 : digitsToNat ([digitChar (m / 100)] ++ [digitChar (m / 10 % 10)])
      = 10 * digitsToNat [digitChar (m / 100)] + digitVal (digitChar (m / 10 % 10)) :=
    digitsToNat_append_single _ _
  have h3 : digitsToNat [digitChar (m / 100)]
      = digitVal (digitChar (m / 100)) := by
    simp [digitsToNat]
  rw [show ([digitChar (m / 100), digitChar (m / 10 % 10)] : List Char)
        = [digitChar (m / 100)] ++ [digitChar (m / 10 % 10)] from rfl, h2, h3,
    digitVal_digitChar (by omega : m / 100 < 10),
    digitVal_digitChar (Nat.mod_lt _ (by omega) : m / 10 % 10 < 10),
    digitVal_digitChar (Nat.mod_lt _ (by omega) : m % 10 < 10)]
  omega

/-! ## The floating point token grammar `FLOAT_RE`

`FLOAT_RE = re.compile(r"[-+]?\d*\.?\d+(?:[eE][-+]?\d+)?")` (line 23 of
`brd2svg.py`).  `matchFloat s` mirrors a Python regex match attempt anchored
at the start of `s`: greedy matching of each sub-pattern with backtracking,
exactly as the backtracking engine behaves on this pattern.  It returns the
matched token and the remainder of the input. -/

/-- Match `\d*\.?\d+` at the start of `s` (greedy, with the engine's
backtracking: if no digit follows the optional dot, the dot is given up;
if digits were read before the dot they then satisfy `\d+`). -/
def matchBody (s : List Char) : Option (List Char × List Char) :=
  let d1 := s.takeWhile Char.isDigit
  match s.dropWhile Char.isDigit with
  | c0 :: r2 =>
    if c0 = '.' then
      let d2 := r2.takeWhile Char.isDigit
      if d2.isEmpty then (if d1.isEmpty then none else some (d1, c0 :: r2))
      else some (d1 ++ '.' :: d2, r2.dropWhile Char.isDigit)
    else if d1.isEmpty then none else some (d1, c0 :: r2)
  | [] => if d1.isEmpty then none else some (d1, [])

/-- Match the optional exponent group `(?:[eE][-+]?\d+)?` at the start of
`s`; returns the consumed characters (possibly `[]`) and the remainder.
A lone `e`/`E`, or one followed by a sign without digits, is not consumed
(the group backtracks to the empty match). -/
def matchExp (s : List Char) : List Char × List Char :=
  match s with
  | e :: r1 =>
    if e = 'e' ∨ e = 'E' then
      match r1 with
      | c :: r2 =>
        if c = '+' ∨ c = '-' then
          if (r2.takeWhile Char.isDigit).isEmpty then ([], s)
          else (e :: c :: r2.takeWhile Char.isDigit, r2.dropWhile Char.isDigit)
        else
          if ((c :: r2).takeWhile Char.isDigit).isEmpty then ([], s)
          else (e :: (c :: r2).takeWhile Char.isDigit, (c :: r2).dropWhile Char.isDigit)
      | [] => ([], s)
    else ([], s)
  | [] => ([], s)

/-- Match `FLOAT_RE` at the start of a nonempty string `c :: r`.  The
optional sign is tried first; if the body fails after a sign the engine
retries without the sign (which also fails, since a sign character never
starts a body — the branch is kept for fidelity to the engine). -/
def matchFloatCons (c : Char) (r : List Char) : Option (List Char × List Char) :=
  if c = '+' ∨ c = '-' then
    match matchBody r with
    | some (b, rest) => some (c :: (b ++ (matchExp rest).1), (matchExp rest).2)
    | none =>
      match matchBody (c :: r) with
      | some (b, rest) => some (b ++ (matchExp rest).1, (matchExp rest).2)
      | none => none
  else
    match matchBody (c :: r) with
    | some (b, rest) => some (b ++ (matchExp rest).1, (matchExp rest).2)
    | none => none

/-- Match the whole of `FLOAT_RE` at the start of `s`. -/
def matchFloat (s : List Char) : Option (List Char × List Char) :=
  match s with
  | [] => none
  | c :: r => matchFloatCons c r

lemma matchBody_sound {s b r : List Char} (h : matchBody s = some (b, r)) :
    s = b ++ r ∧ b ≠ [] := by
  have hsplit := List.takeWhile_append_dropWhile Char.isDigit s
  cases heq : s.dropWhile Char.isDigit with
  | nil =>
    rw [heq] at hsplit
    simp only [matchBody, heq] at h
    by_cases hd1 : (s.takeWhile Char.isDigit).isEmpty
    · rw [if_pos hd1] at h
      exact absurd h (by simp)
    · rw [if_neg hd1] at h
      injection h with h1
      injection h1 with hb hr
      subst hb; subst hr
      exact ⟨hsplit.symm, fun hh => hd1 (by simp [hh])⟩
  | cons c0 r2 =>
    rw [heq] at hsplit
    simp only [matchBody, heq] at h
    by_cases hc0 : c0 = '.'
    · rw [if_pos hc0] at h
      subst hc0
      by_cases hd2 : (r2.takeWhile Char.isDigit).isEmpty
      · rw [if_pos hd2] at h
        by_cases hd1 : (s.takeWhile Char.isDigit).isEmpty
        · rw [if_pos hd1] at h
          exact absurd h (by simp)
        · rw [if_neg hd1] at h
          injection h with h1
          injection h1 with hb hr
          subst hb; subst hr
          exact ⟨hsplit.symm, fun hh => hd1 (by simp [hh])⟩
      · rw [if_neg hd2] at h
        injection h with h1
        injection h1 with hb hr
        subst hb; subst hr
        have hsplit2 := List.takeWhile_append_dropWhile Char.isDigit r2
        refine ⟨?_, by simp⟩
        calc s = s.takeWhile Char.isDigit ++ '.' :: r2 := hsplit.symm
          _ = s.takeWhile Char.isDigit
              ++ '.' :: (r2.takeWhile Char.isDigit ++ r2.dropWhile Char.isDigit) := by
                rw [hsplit2]
          _ = (s.takeWhile Char.isDigit ++ '.' :: r2.takeWhile Char.isDigit)
              ++ r2.dropWhile Char.isDigit := by simp
    · rw [if_neg hc0] at h
      by_cases hd1 : (s.takeWhile Char.isDigit).isEmpty
      · rw [if_pos hd1] at h
        exact absurd h (by simp)
      · rw [if_neg hd1] at h
        injection h with h1
        injection h1 with hb hr
        subst hb; subst hr
        exact ⟨hsplit.symm, fun hh => hd1 (by simp [hh])⟩

lemma matchExp_sound : ∀ s e r : List Char, matchExp s = (e, r) → s = e ++ r := by
  intro s e r h
  unfold matchExp at h
  repeat' split at h
  all_goals injection h with h1 h2
  all_goals subst h1
  all_goals subst h2
  all_goals simp

lemma matchExp_eq_parts (s : List Char) : s = (matchExp s).1 ++ (matchExp s).2 :=
  matchExp_sound s (matchExp s).1 (matchExp s).2 rfl

lemma matchFloat_sound {s t r : List Char} (h : matchFloat s = some (t, r)) :
    s = t ++ r ∧ t ≠ [] := by
  cases s with
  | nil => simp [matchFloat] at h
  | cons c cs =>
    simp only [matchFloat] at h
    unfold matchFloatCons at h
    by_cases hc : c = '+' ∨ c = '-'
    · rw [if_pos hc] at h
      cases hb : matchBody cs with
      | some p =>
        obtain ⟨b, rest⟩ := p
        rw [hb] at h
        injection h with h1
        injection h1 with ht hr
        subst ht; subst hr
        obtain ⟨hsb, hbne⟩ := matchBody_sound hb
        refine ⟨?_, by simp⟩
        conv_lhs => rw [hsb, matchExp_eq_parts rest]
        simp
      | none =>
        rw [hb] at h
        cases hb2 : matchBody (c :: cs) with
        | some p =>
          obtain ⟨b, rest⟩ := p
          rw [hb2] at h
          injection h with h1
          injection h1 with ht hr
          subst ht; subst hr
          obtain ⟨hsb, hbne⟩ := matchBody_sound hb2
          refine ⟨?_, by simp [hbne]⟩
          conv_lhs => rw [hsb, matchExp_eq_parts rest]
          simp
        | none =>
          rw [hb2] at h
          exact absurd h (by simp)
    · rw [if_neg hc] at h
      cases hb2 : matchBody (c :: cs) with
      | some p =>
        obtain ⟨b, rest⟩ := p
        rw [hb2] at h
        injection h with h1
        injection h1 with ht hr
        subst ht; subst hr
        obtain ⟨hsb, hbne⟩ := matchBody_sound hb2
        refine ⟨?_, by simp [hbne]⟩
        conv_lhs => rw [hsb, matchExp_eq_parts rest]
        simp
      | none =>
        rw [hb2] at h
        exact absurd h (by simp)

/-- One piece of a scanned string: a `FLOAT_RE` match, or a single
passed-through character. -/
inductive Piece where
  | tok (t : List Char)
  | chr (c : Char)
deriving DecidableEq

/-- Fueled left-to-right regex scan of a string, as performed by both
`FLOAT_RE.findall` and `FLOAT_RE.sub`: at each position try a match; on
success emit the token and continue after it, otherwise pass the character
through and advance by one. -/
def scanAux : Nat → List Char → List Piece
  | 0, _ => []
  | _ + 1, [] => []
  | fuel + 1, c :: cs =>
    match matchFloat (c :: cs) with
    | some (t, r) => .tok t :: scanAux fuel r
    | none => .chr c :: scanAux fuel cs

/-- The regex scan of a string (`s.length` is always sufficient fuel). -/
def scan (s : List Char) : List Piece := scanAux s.length s

/-- `FLOAT_RE.findall`: the ordered numeric literals of a string. -/
def findall (s : List Char) : List (List Char) :=
  (scan s).filterMap fun p => match p with | .tok t => some t | .chr _ => none

/-- The non-numeric characters of a string, in order (everything
`FLOAT_RE.sub` leaves untouched). -/
def passthru (s : List Char) : List Char :=
  (scan s).filterMap fun p => match p with | .tok _ => none | .chr c => some c

lemma matchFloat_shorter {s t r : List Char} (h : matchFloat s = some (t, r)) :
    r.length < s.length := by
  obtain ⟨hs, ht⟩ := matchFloat_sound h
  have := congrArg List.length hs
  rw [List.length_append] at this
  cases t with
  | nil => exact absurd rfl ht
  | cons a b => simp only [List.length_cons] at this; omega

lemma scanAux_stable : ∀ f₁ f₂ : Nat, ∀ s : List Char, s.length ≤ f₁ → s.length ≤ f₂ →
    scanAux f₁ s = scanAux f₂ s := by
  intro f₁
  induction f₁ with
  | zero =>
    intro f₂ s h1 h2
    have hs : s = [] := List.length_eq_zero.mp (by omega)
    subst hs
    cases f₂ <;> rfl
  | succ g ih =>
    intro f₂ s h1 h2
    cases s with
    | nil => cases f₂ <;> rfl
    | cons c cs =>
      cases f₂ with
      | zero => simp at h2
      | succ fh =>
        show (match matchFloat (c :: cs) with
          | some (t, r) => Piece.tok t :: scanAux g r
          | none => Piece.chr c :: scanAux g cs)
          = (match matchFloat (c :: cs) with
          | some (t, r) => Piece.tok t :: scanAux fh r
          | none => Piece.chr c :: scanAux fh cs)
        cases hm : matchFloat (c :: cs) with
        | some p =>
          obtain ⟨t, r⟩ := p
          have hlen := matchFloat_shorter hm
          simp only [List.length_cons] at h1 h2 hlen
          show Piece.tok t :: scanAux g r = Piece.tok t :: scanAux fh r
          rw [ih fh r (by omega) (by omega)]
        | none =>
          simp only [List.length_cons] at h1 h2
          show Piece.chr c :: scanAux g cs = Piece.chr c :: scanAux fh cs
          rw [ih fh cs (by omega) (by omega)]

lemma scan_nil : scan [] = [] := rfl

lemma scan_tok {s t r : List Char} (h : matchFloat s = some (t, r)) :
    scan s = .tok t :: scan r := by
  have hlen := matchFloat_shorter h
  cases s with
  | nil => simp [matchFloat] at h
  | cons c cs =>
    show scanAux (c :: cs).length (c :: cs) = _
    simp only [List.length_cons]
    show (match matchFloat (c :: cs) with
      | some (t, r) => Piece.tok t :: scanAux cs.length r
      | none => Piece.chr c :: scanAux cs.length cs) = _
    rw [h]
    show Piece.tok t :: scanAux cs.length r = Piece.tok t :: scan r
    simp only [List.length_cons] at hlen
    rw [scanAux_stable cs.length r.length r (by omega) le_rfl]
    rfl

lemma scan_chr {c : Char} {cs : List Char} (h : matchFloat (c :: cs) = none) :
    scan (c :: cs) = .chr c :: scan cs := by
  show scanAux (c :: cs).length (c :: cs) = _
  simp only [List.length_cons]
  show (match matchFloat (c :: cs) with
    | some (t, r) => Piece.tok t :: scanAux cs.length r
    | none => Piece.chr c :: scanAux cs.length cs) = _
  rw [h]
  rfl

/-- `FLOAT_RE.sub` with a pop-from-the-front replacement sequence, as in
`add_offset_to_path_d`: every matched token is replaced by the next
replacement, passed-through characters are kept.  (The Python replacer pops
from `new_coords`; a surplus of replacements is discarded, and the
"pop from empty" branch is unreachable because the replacement list always
holds at least one entry per match.) -/
def subst : List Piece → List (List Char) → List Char
  | [], _ => []
  | .chr c :: ps, reps => c :: subst ps reps
  | .tok _ :: ps, [] => subst ps []
  | .tok _ :: ps, rep :: reps => rep ++ subst ps reps

/-! ## Values of float literals, and 3-decimal formatting

Python `float` values are idealised as exact rationals; `float(token)` for a
`FLOAT_RE` token becomes `parseFloat`, and `f"{x:.3f}"` becomes `fmt3`
(round half to even at the third decimal — differences to IEEE doubles only
arise at double-precision/overflow edges that no claim exercises). -/

/-- Split a string at the first character satisfying `p` (the character is
dropped); `none` if there is none. -/
def splitAtChar (p : Char → Bool) : List Char → List Char × Option (List Char)
  | [] => ([], none)
  | c :: r =>
    if p c then ([], some r)
    else ((splitAtChar p r).1.cons c, (splitAtChar p r).2)

/-- Value of an exponent part: optional sign and digits. -/
def expVal (l : List Char) : ℤ :=
  match l with
  | '-' :: d => -(digitsToNat d : ℤ)
  | '+' :: d => (digitsToNat d : ℤ)
  | d => (digitsToNat d : ℤ)

/-- `10^z` over ℚ for an integer exponent. -/
def pow10 (z : ℤ) : ℚ :=
  if 0 ≤ z then ((10 : ℚ) ^ z.toNat) else 1 / ((10 : ℚ) ^ (-z).toNat)

/-- Value of a fractional digit string. -/
def fracVal (f : List Char) : ℚ := (digitsToNat f : ℚ) / (10 : ℚ) ^ f.length

/-- Value of an unsigned float literal `digits[.digits][eE[+-]digits]`. -/
def parseUnsigned (t : List Char) : ℚ :=
  let mante := splitAtChar (fun c => c == 'e' || c == 'E') t
  let ipfp := splitAtChar (fun c => c == '.') mante.1
  let base : ℚ :=
    (digitsToNat ipfp.1 : ℚ) + (match ipfp.2 with | some f => fracVal f | none => 0)
  match mante.2 with
  | none => base
  | some e => base * pow10 (expVal e)

/-- `float(token)` for a `FLOAT_RE` token: optional sign then unsigned
value. -/
def parseFloat (t : List Char) : ℚ :=
  match t with
  | [] => 0
  | c :: r =>
    if c = '+' then parseUnsigned r
    else if c = '-' then -(parseUnsigned r)
    else parseUnsigned t

/-- Computable floor of a rational (`Int` division rounds toward negative
infinity for the positive denominator of a `Rat`). -/
def rfloor (q : ℚ) : ℤ := q.num / (q.den : ℤ)

lemma rfloor_eq_floor (q : ℚ) : rfloor q = ⌊q⌋ := by
  conv_rhs => rw [← Rat.num_div_den q, Rat.floor_intCast_div_natCast]
  rfl

/-- Round half to even (the rounding of Python's float formatting). -/
def rhe (q : ℚ) : ℤ :=
  if q - (rfloor q : ℤ) < (1 : ℚ)/2 then rfloor q
  else if (1 : ℚ)/2 < q - (rfloor q : ℤ) then rfloor q + 1
  else if rfloor q % 2 = 0 then rfloor q else rfloor q + 1

lemma rhe_dist (q : ℚ) : |(rhe q : ℚ) - q| ≤ 1/2 := by
  have hfl : ((⌊q⌋ : ℤ) : ℚ) ≤ q := Int.floor_le q
  have hfu : q < (⌊q⌋ : ℚ) + 1 := Int.lt_floor_add_one q
  rw [abs_le]
  unfold rhe
  rw [rfloor_eq_floor]
  split
  · rename_i h
    constructor <;> linarith
  · rename_i h
    split
    · rename_i h2
      push_cast
      constructor <;> linarith
    · rename_i h2
      split
      · constructor <;> linarith
      · push_cast
        constructor <;> linarith

lemma rhe_intCast (n : ℤ) : rhe ((n : ℚ)) = n := by
  have h0 : rfloor ((n : ℚ)) = n := by rw [rfloor_eq_floor, Int.floor_intCast]
  unfold rhe
  rw [h0]
  rw [if_pos]
  rw [sub_self]
  norm_num

lemma rhe_cases (q : ℚ) : rhe q = rfloor q ∨ rhe q = rfloor q + 1 := by
  unfold rhe
  split
  · exact Or.inl rfl
  · split
    · exact Or.inr rfl
    · split
      · exact Or.inl rfl
      · exact Or.inr rfl

lemma rhe_nonneg {q : ℚ} (h : 0 ≤ q) : 0 ≤ rhe q := by
  have hf : (0 : ℤ) ≤ ⌊q⌋ := Int.floor_nonneg.mpr h
  rcases rhe_cases q with h1 | h1 <;> rw [h1, rfloor_eq_floor] <;> omega

lemma rhe_nonpos {q : ℚ} (h : q < 0) : rhe q ≤ 0 := by
  have hf : ⌊q⌋ < 0 := by
    rw [Int.floor_lt]
    exact_mod_cast h
  rcases rhe_cases q with h1 | h1 <;> rw [h1, rfloor_eq_floor] <;> omega

/-! ## The path-data rewriter `add_offset_to_path_d` -/

/-- A piece of a "well separated" path string: either a separator character
or a plain decimal literal (optional minus sign, integer digits, optional
fractional digits). -/
inductive Chunk where
  | sep (c : Char)
  | num (neg : Bool) (ip : List Char) (fp : Option (List Char))
deriving DecidableEq

/-- The characters of an optional fractional part. -/
def fracChars : Option (List Char) → List Char
  | some f => '.' :: f
  | none => []

/-- The characters of a chunk. -/
def renderChunk : Chunk → List Char
  | .sep c => [c]
  | .num neg ip fp => (if neg then ['-'] else []) ++ ip ++ fracChars fp

/-- The characters of a chunk list. -/
def render : List Chunk → List Char
  | [] => []
  | c :: r => renderChunk c ++ render r

/-- The formatted output of `f"{q:.3f}"` as a chunk: a minus sign exactly
when the value is negative (Python formats with the sign of the float, so a
strictly negative value that rounds to zero at three decimals is printed
`-0.000`), then the integer digits, a dot and exactly three fractional
digits of the magnitude rounded half to even at the third decimal. -/
def fmtChunk (q : ℚ) : Chunk :=
  .num (decide (q < 0)) (natDigits ((rhe (q * 1000)).natAbs / 1000))
    (some (pad3 ((rhe (q * 1000)).natAbs % 1000)))

/-- `f"{q:.3f}"`: Python's fixed 3-decimal float formatting. -/
def fmt3 (q : ℚ) : List Char := renderChunk (fmtChunk q)

/-- The `while i < len(nums)` loop of `add_offset_to_path_d` (lines 75–82):
offset literals pairwise (`x_off` at even positions, `y_off` at odd
positions); an odd trailing literal gets `x_off` plus a synthetic `0`
y-entry that the substitution never consumes. -/
def buildCoords : List ℚ → ℚ → ℚ → List (List Char)
  | [], _, _ => []
  | [x], xOff, _ => [fmt3 (x + xOff), fmt3 0]
  | x :: y :: rest, xOff, yOff =>
    fmt3 (x + xOff) :: fmt3 (y + yOff) :: buildCoords rest xOff yOff

/-- `add_offset_to_path_d(d_attr, x_off, y_off)` (lines 61–90): find all
`FLOAT_RE` tokens, convert them to floats, offset them pairwise, format
them to three decimals and substitute them back in order via `FLOAT_RE.sub`,
leaving every unmatched character unchanged.  Returns the input unchanged
when there are no tokens. -/
def add_offset_to_path_d (d_attr : List Char) (x_off y_off : ℚ) : List Char :=
  if (findall d_attr).isEmpty then d_attr
  else subst (scan d_attr) (buildCoords ((findall d_attr).map parseFloat) x_off y_off)

/-! ## Well separated path strings

A path string is *well separated* when it alternates plain decimal literals
with separator characters that cannot interact with the float grammar
(anything that is not a digit and none of `.`, `e`, `E`, `+`, `-`), with no
two literals adjacent.  Ordinary SVG path data (`M 10 20 L 1.5,2.5 z`) is of
this shape. -/

/-- A separator character that can never start, extend or merge with a
`FLOAT_RE` match. -/
def safeChar (c : Char) : Bool :=
  !c.isDigit && !(c == '.') && !(c == 'e') && !(c == 'E') && !(c == '+') && !(c == '-')

/-- Well-formedness of a single chunk: separators are safe; literals have
nonempty all-digit integer parts and (when present) nonempty all-digit
fractional parts. -/
def chunkOkB : Chunk → Bool
  | .sep c => safeChar c
  | .num _ ip fp =>
    !ip.isEmpty && ip.all Char.isDigit &&
      (match fp with | none => true | some f => !f.isEmpty && f.all Char.isDigit)

/-- Is this chunk a numeric literal? -/
def isNumB : Chunk → Bool
  | .num _ _ _ => true
  | .sep _ => false

/-- No two adjacent numeric literals. -/
def noAdjB : List Chunk → Bool
  | [] => true
  | [_] => true
  | a :: b :: r => (!(isNumB a && isNumB b)) && noAdjB (b :: r)

/-- A well separated chunk list. -/
def WFB (cs : List Chunk) : Bool := cs.all chunkOkB && noAdjB cs

/-- The pieces the regex scan recovers from a well separated string. -/
def toPieces : List Chunk → List Piece
  | [] => []
  | .sep c :: r => .chr c :: toPieces r
  | .num neg ip fp :: r => .tok (renderChunk (.num neg ip fp)) :: toPieces r

/-- The numeric literals of a chunk list, in order. -/
def numTokens : List Chunk → List (List Char)
  | [] => []
  | .sep _ :: r => numTokens r
  | .num neg ip fp :: r => renderChunk (.num neg ip fp) :: numTokens r

/-- The separator characters of a chunk list, in order. -/
def sepChars : List Chunk → List Char
  | [] => []
  | .sep c :: r => c :: sepChars r
  | .num _ _ _ :: r => sepChars r

/-- Replace the numeric literals of a chunk list, in order, by the
3-decimal renderings of the given values. -/
def updateNums : List Chunk → List ℚ → List Chunk
  | [], _ => []
  | .sep c :: r, vs => .sep c :: updateNums r vs
  | .num neg ip fp :: r, [] => .num neg ip fp :: updateNums r []
  | .num _ _ _ :: r, v :: vs => fmtChunk v :: updateNums r vs

/-- The offset value sequence: `dx` is added at even positions, `dy` at odd
positions (the trailing literal of an odd-length sequence sits at an even
position and receives `dx`). -/
def altVals : List ℚ → ℚ → ℚ → List ℚ
  | [], _, _ => []
  | [x], dx, _ => [x + dx]
  | x :: y :: r, dx, dy => (x + dx) :: (y + dy) :: altVals r dx dy

lemma matchBody_unsafe_head {c : Char} {r : List Char} (h1 : c.isDigit = false)
    (h2 : c ≠ '.') : matchBody (c :: r) = none := by
  simp [matchBody, List.takeWhile, List.dropWhile, h1, h2]

lemma matchFloat_safe {c : Char} {r : List Char} (h : safeChar c = true) :
    matchFloat (c :: r) = none := by
  simp only [safeChar, Bool.and_eq_true, Bool.not_eq_true', beq_eq_false_iff_ne] at h
  obtain ⟨⟨⟨⟨⟨hdig, hdot⟩, he⟩, hE⟩, hplus⟩, hminus⟩ := h
  have hb : matchBody (c :: r) = none := matchBody_unsafe_head hdig hdot
  simp [matchFloat, matchFloatCons, hplus, hminus, hb]

lemma takeWhile_all_append {p : Char → Bool} : ∀ xs ys : List Char, xs.all p = true →
    (ys = [] ∨ ∃ c rs, ys = c :: rs ∧ p c = false) →
    (xs ++ ys).takeWhile p = xs ∧ (xs ++ ys).dropWhile p = ys := by
  intro xs
  induction xs with
  | nil =>
    intro ys _ hy
    rcases hy with rfl | ⟨c, rs, rfl, hc⟩
    · exact ⟨rfl, rfl⟩
    · simp [List.takeWhile, List.dropWhile, hc]
  | cons a t ih =>
    intro ys hall hy
    simp only [List.all_cons, Bool.and_eq_true] at hall
    obtain ⟨ha, ht⟩ := hall
    obtain ⟨h1, h2⟩ := ih ys ht hy
    constructor
    · simp [List.takeWhile, ha, h1]
    · simp [List.dropWhile, ha, h2]

/-- The last condition a well separated context guarantees after a literal:
either nothing, or a safe character. -/
def SafeHead (rest : List Char) : Prop :=
  rest = [] ∨ ∃ c rs, rest = c :: rs ∧ safeChar c = true

lemma SafeHead.not_digit {rest : List Char} (h : SafeHead rest) :
    rest = [] ∨ ∃ c rs, rest = c :: rs ∧ c.isDigit = false := by
  rcases h with rfl | ⟨c, rs, rfl, hc⟩
  · exact Or.inl rfl
  · refine Or.inr ⟨c, rs, rfl, ?_⟩
    simp only [safeChar, Bool.and_eq_true, Bool.not_eq_true'] at hc
    exact hc.1.1.1.1.1

lemma matchExp_of_safe {rest : List Char} (h : SafeHead rest) :
    matchExp rest = ([], rest) := by
  rcases h with rfl | ⟨c, rs, rfl, hc⟩
  · rfl
  · simp only [safeChar, Bool.and_eq_true, Bool.not_eq_true', beq_eq_false_iff_ne] at hc
    simp [matchExp, hc.1.1.1.2, hc.1.1.2]

/-- The unsigned body of a well-formed literal, followed by a safe context,
matches exactly the literal body. -/
lemma matchBody_renderNum {ip : List Char} {fp : Option (List Char)} {rest : List Char}
    (hip : ip.isEmpty = false) (hipd : ip.all Char.isDigit = true)
    (hfp : fp = none ∨ ∃ f, fp = some f ∧ f.isEmpty = false ∧ f.all Char.isDigit = true)
    (hrest : SafeHead rest) :
    matchBody ((ip ++ fracChars fp) ++ rest) = some (ip ++ fracChars fp, rest) := by
  rcases hfp with rfl | ⟨f, rfl, hfne, hfd⟩
  · -- no fractional part: the string is `ip ++ rest`
    simp only [fracChars, List.append_nil]
    obtain ⟨h1, h2⟩ := takeWhile_all_append ip rest hipd hrest.not_digit
    unfold matchBody
    rw [h1, h2]
    rcases hrest with rfl | ⟨c, rs, rfl, hc⟩
    · simp [hip]
    · have hcdot : ¬(c = '.') := by
        simp only [safeChar, Bool.and_eq_true, Bool.not_eq_true', beq_eq_false_iff_ne] at hc
        exact hc.1.1.1.1.2
      simp [hcdot, hip]
  · -- fractional part `.f`: the string is `ip ++ '.' :: (f ++ rest)`
    simp only [fracChars]
    have hshape : (ip ++ '.' :: f) ++ rest = ip ++ '.' :: (f ++ rest) := by simp
    rw [hshape]
    obtain ⟨h1, h2⟩ := takeWhile_all_append ip ('.' :: (f ++ rest)) hipd
      (Or.inr ⟨'.', f ++ rest, rfl, by decide⟩)
    obtain ⟨h3, h4⟩ := takeWhile_all_append f rest hfd hrest.not_digit
    unfold matchBody
    rw [h1, h2]
    simp only [if_pos rfl]
    rw [h3, h4]
    simp [hfne]

/-- A well-formed literal followed by a safe context matches exactly the
literal. -/
lemma matchFloat_renderNum {neg : Bool} {ip : List Char} {fp : Option (List Char)}
    {rest : List Char} (hok : chunkOkB (.num neg ip fp) = true) (hrest : SafeHead rest) :
    matchFloat (renderChunk (.num neg ip fp) ++ rest)
      = some (renderChunk (.num neg ip fp), rest) := by
  simp only [chunkOkB, Bool.and_eq_true, Bool.not_eq_true'] at hok
  obtain ⟨⟨hip, hipd⟩, hfp0⟩ := hok
  have hfp : fp = none ∨ ∃ f, fp = some f ∧ f.isEmpty = false ∧ f.all Char.isDigit = true := by
    cases fp with
    | none => exact Or.inl rfl
    | some f =>
      simp only [Bool.and_eq_true, Bool.not_eq_true'] at hfp0
      exact Or.inr ⟨f, rfl, hfp0.1, hfp0.2⟩
  have hbody := matchBody_renderNum hip hipd hfp hrest
  have hexp := matchExp_of_safe hrest
  cases neg with
  | false =>
    have hren : renderChunk (.num false ip fp) = ip ++ fracChars fp := by
      simp [renderChunk]
    rw [hren]
    cases ip with
    | nil => simp at hip
    | cons d ds =>
      have hd : d.isDigit = true := by
        simp only [List.all_cons, Bool.and_eq_true] at hipd
        exact hipd.1
      have hdp : ¬(d = '+' ∨ d = '-') := by
        rintro (rfl | rfl) <;> simp at hd
      rw [show (((d :: ds) ++ fracChars fp) ++ rest) = d :: ((ds ++ fracChars fp) ++ rest) by
        simp]
      simp only [matchFloat]
      unfold matchFloatCons
      rw [if_neg hdp]
      rw [show (d :: ((ds ++ fracChars fp) ++ rest)) = ((d :: ds) ++ fracChars fp) ++ rest by
        simp]
      rw [hbody]
      simp [hexp]
  | true =>
    have hren : renderChunk (.num true ip fp) = '-' :: (ip ++ fracChars fp) := by
      simp [renderChunk]
    rw [hren]
    rw [show ('-' :: (ip ++ fracChars fp) ++ rest) = '-' :: ((ip ++ fracChars fp) ++ rest) by
      simp]
    simp only [matchFloat]
    unfold matchFloatCons
    rw [if_pos (Or.inr rfl)]
    rw [hbody]
    simp [hexp]

lemma WFB_cons {c : Chunk} {cs : List Chunk} (h : WFB (c :: cs) = true) :
    chunkOkB c = true ∧ WFB cs = true := by
  simp only [WFB, List.all_cons, Bool.and_eq_true] at h ⊢
  refine ⟨h.1.1, h.1.2, ?_⟩
  rcases cs with _ | ⟨b, r⟩
  · rfl
  · have h2 := h.2
    simp only [noAdjB, Bool.and_eq_true] at h2
    exact h2.2

lemma render_head_safe {neg : Bool} {ip : List Char} {fp : Option (List Char)}
    {cs : List Chunk} (h : WFB (Chunk.num neg ip fp :: cs) = true) :
    SafeHead (render cs) := by
  rcases cs with _ | ⟨c2, r⟩
  · exact Or.inl rfl
  · cases c2 with
    | sep ch =>
      refine Or.inr ⟨ch, render r, by simp [render, renderChunk], ?_⟩
      have hok := (WFB_cons (WFB_cons h).2).1
      simpa [chunkOkB] using hok
    | num n2 i2 f2 =>
      exfalso
      simp only [WFB, Bool.and_eq_true, noAdjB, isNumB] at h
      simp at h

lemma scan_render : ∀ cs : List Chunk, WFB cs = true → scan (render cs) = toPieces cs := by
  intro cs
  induction cs with
  | nil => intro _; rfl
  | cons c r ih =>
    intro h
    obtain ⟨hok, hwfr⟩ := WFB_cons h
    cases c with
    | sep ch =>
      have hsafe : safeChar ch = true := by simpa [chunkOkB] using hok
      have hstep : render (Chunk.sep ch :: r) = ch :: render r := by simp [render, renderChunk]
      rw [hstep, scan_chr (matchFloat_safe hsafe), ih hwfr]
      rfl
    | num neg ip fp =>
      have hstep : render (Chunk.num neg ip fp :: r)
          = renderChunk (.num neg ip fp) ++ render r := rfl
      rw [hstep, scan_tok (matchFloat_renderNum hok (render_head_safe h)), ih hwfr]
      rfl

lemma filterMap_tok_toPieces : ∀ cs : List Chunk,
    (toPieces cs).filterMap (fun p => match p with | .tok t => some t | .chr _ => none)
      = numTokens cs := by
  intro cs
  induction cs with
  | nil => rfl
  | cons c r ih => cases c <;> simp [toPieces, numTokens, List.filterMap_cons, ih]

lemma filterMap_chr_toPieces : ∀ cs : List Chunk,
    (toPieces cs).filterMap (fun p => match p with | .tok _ => none | .chr c => some c)
      = sepChars cs := by
  intro cs
  induction cs with
  | nil => rfl
  | cons c r ih => cases c <;> simp [toPieces, sepChars, List.filterMap_cons, ih]

lemma findall_render {cs : List Chunk} (h : WFB cs = true) :
    findall (render cs) = numTokens cs := by
  unfold findall
  rw [scan_render cs h, filterMap_tok_toPieces]

lemma passthru_render {cs : List Chunk} (h : WFB cs = true) :
    passthru (render cs) = sepChars cs := by
  unfold passthru
  rw [scan_render cs h, filterMap_chr_toPieces]

lemma subst_toPieces : ∀ cs : List Chunk, ∀ vs : List ℚ, ∀ extra : List (List Char),
    (numTokens cs).length = vs.length →
    subst (toPieces cs) (vs.map fmt3 ++ extra) = render (updateNums cs vs) := by
  intro cs
  induction cs with
  | nil => intro vs extra _; rfl
  | cons c r ih =>
    intro vs extra h
    cases c with
    | sep ch =>
      show ch :: subst (toPieces r) (vs.map fmt3 ++ extra)
        = render (Chunk.sep ch :: updateNums r vs)
      rw [ih vs extra h]
      simp [render, renderChunk]
    | num neg ip fp =>
      cases vs with
      | nil => simp [numTokens] at h
      | cons v vs2 =>
        show fmt3 v ++ subst (toPieces r) (vs2.map fmt3 ++ extra)
          = render (fmtChunk v :: updateNums r vs2)
        rw [ih vs2 extra (by simpa [numTokens] using h)]
        simp [render, fmt3]

lemma altVals_length : ∀ (ns : List ℚ) (dx dy : ℚ), (altVals ns dx dy).length = ns.length
  | [], _, _ => rfl
  | [_], _, _ => rfl
  | x :: y :: r, dx, dy => by simp [altVals, altVals_length r dx dy]

lemma buildCoords_split : ∀ (ns : List ℚ) (dx dy : ℚ),
    ∃ extra, buildCoords ns dx dy = (altVals ns dx dy).map fmt3 ++ extra
  | [], _, _ => ⟨[], rfl⟩
  | [x], dx, dy => ⟨[fmt3 0], rfl⟩
  | x :: y :: r, dx, dy => by
    obtain ⟨ex, hex⟩ := buildCoords_split r dx dy
    exact ⟨ex, by simp [buildCoords, altVals, hex]⟩

lemma updateNums_nil_vals : ∀ cs : List Chunk, updateNums cs [] = cs
  | [] => rfl
  | .sep c :: r => by simp [updateNums, updateNums_nil_vals r]
  | .num n i f :: r => by simp [updateNums, updateNums_nil_vals r]

lemma numTokens_updateNums : ∀ cs : List Chunk, ∀ vs : List ℚ,
    (numTokens cs).length = vs.length →
    numTokens (updateNums cs vs) = vs.map fmt3 := by
  intro cs
  induction cs with
  | nil =>
    intro vs h
    cases vs with
    | nil => rfl
    | cons v vs2 => simp [numTokens] at h
  | cons c r ih =>
    intro vs h
    cases c with
    | sep ch =>
      show numTokens (Chunk.sep ch :: updateNums r vs) = vs.map fmt3
      rw [show numTokens (Chunk.sep ch :: updateNums r vs) = numTokens (updateNums r vs)
        from rfl]
      exact ih vs h
    | num neg ip fp =>
      cases vs with
      | nil => simp [numTokens] at h
      | cons v vs2 =>
        show numTokens (fmtChunk v :: updateNums r vs2) = fmt3 v :: vs2.map fmt3
        rw [show numTokens (fmtChunk v :: updateNums r vs2)
            = renderChunk (fmtChunk v) :: numTokens (updateNums r vs2) from rfl]
        rw [ih vs2 (by simpa [numTokens] using h)]
        rfl

lemma chunkOkB_fmtChunk (v : ℚ) : chunkOkB (fmtChunk v) = true := by
  simp only [fmtChunk, chunkOkB, Bool.and_eq_true, Bool.not_eq_true']
  refine ⟨⟨?_, ?_⟩, ?_, ?_⟩
  · cases hnd : natDigits ((rhe (v * 1000)).natAbs / 1000) with
    | nil => exact absurd hnd (natDigits_ne_nil _)
    | cons a b => rfl
  · rw [List.all_eq_true]
    intro c hc
    exact natDigits_all_digit _ c hc
  · simp [pad3]
  · rw [List.all_eq_true]
    intro c hc
    exact pad3_all_digit (Nat.mod_lt _ (by omega)) c hc

lemma updateNums_shape : ∀ (cs : List Chunk) (vs : List ℚ),
    (updateNums cs vs).map isNumB = cs.map isNumB := by
  intro cs
  induction cs with
  | nil => intro vs; rfl
  | cons c r ih =>
    intro vs
    cases c with
    | sep ch => simp [updateNums, isNumB, ih]
    | num neg ip fp =>
      cases vs with
      | nil => simp [updateNums, isNumB, ih]
      | cons v vs2 => simp [updateNums, isNumB, fmtChunk, ih]

lemma noAdjB_of_shape : ∀ cs ds : List Chunk, cs.map isNumB = ds.map isNumB →
    noAdjB cs = noAdjB ds
  | [], [], _ => rfl
  | [], _ :: _, h => by simp at h
  | _ :: _, [], h => by simp at h
  | [c], [d], _ => rfl
  | [c], d1 :: d2 :: s, h => by simp at h
  | c1 :: c2 :: r, [d], h => by simp at h
  | c1 :: c2 :: r, d1 :: d2 :: s, h => by
    simp only [List.map_cons, List.cons.injEq] at h
    obtain ⟨h1, h2, h3⟩ := h
    show ((!(isNumB c1 && isNumB c2)) && noAdjB (c2 :: r))
      = ((!(isNumB d1 && isNumB d2)) && noAdjB (d2 :: s))
    rw [h1, h2, noAdjB_of_shape (c2 :: r) (d2 :: s) (by simp [h2, h3])]

lemma all_ok_updateNums : ∀ (cs : List Chunk) (vs : List ℚ),
    cs.all chunkOkB = true → (updateNums cs vs).all chunkOkB = true := by
  intro cs
  induction cs with
  | nil => intro vs _; rfl
  | cons c r ih =>
    intro vs h
    simp only [List.all_cons, Bool.and_eq_true] at h
    cases c with
    | sep ch =>
      show (Chunk.sep ch :: updateNums r vs).all chunkOkB = true
      simp only [List.all_cons, Bool.and_eq_true]
      exact ⟨h.1, ih vs h.2⟩
    | num neg ip fp =>
      cases vs with
      | nil =>
        show (Chunk.num neg ip fp :: updateNums r []).all chunkOkB = true
        simp only [List.all_cons, Bool.and_eq_true]
        exact ⟨h.1, ih [] h.2⟩
      | cons v vs2 =>
        show (fmtChunk v :: updateNums r vs2).all chunkOkB = true
        simp only [List.all_cons, Bool.and_eq_true]
        exact ⟨chunkOkB_fmtChunk v, ih vs2 h.2⟩

lemma WFB_updateNums {cs : List Chunk} (vs : List ℚ) (h : WFB cs = true) :
    WFB (updateNums cs vs) = true := by
  simp only [WFB, Bool.and_eq_true] at h ⊢
  refine ⟨all_ok_updateNums cs vs h.1, ?_⟩
  rw [noAdjB_of_shape (updateNums cs vs) cs (updateNums_shape cs vs)]
  exact h.2

/-- Master lemma: on a well separated string the rewriter replaces exactly
the literals, each by the 3-decimal rendering of its offset value, and
keeps every separator. -/
lemma add_offset_render (cs : List Chunk) (h : WFB cs = true) (dx dy : ℚ) :
    add_offset_to_path_d (render cs) dx dy
      = render (updateNums cs (altVals ((numTokens cs).map parseFloat) dx dy)) := by
  unfold add_offset_to_path_d
  rw [findall_render h, scan_render cs h]
  by_cases hnil : (numTokens cs).isEmpty
  · rw [if_pos hnil]
    have he : numTokens cs = [] := by
      cases hcs : numTokens cs with
      | nil => rfl
      | cons a b => rw [hcs] at hnil; simp at hnil
    rw [he]
    show render cs = render (updateNums cs (altVals [] dx dy))
    rw [show altVals [] dx dy = [] from rfl, updateNums_nil_vals]
  · rw [if_neg hnil]
    obtain ⟨ex, hex⟩ := buildCoords_split ((numTokens cs).map parseFloat) dx dy
    rw [hex]
    exact subst_toPieces cs _ ex (by simp [altVals_length])

lemma splitAtChar_no {p : Char → Bool} : ∀ l : List Char, (∀ c ∈ l, p c = false) →
    splitAtChar p l = (l, none) := by
  intro l
  induction l with
  | nil => intro _; rfl
  | cons c r ih =>
    intro h
    have hc := h c (by simp)
    simp [splitAtChar, hc, ih (fun d hd => h d (by simp [hd]))]

lemma splitAtChar_first {p : Char → Bool} : ∀ (xs : List Char) (y : Char) (r : List Char),
    (∀ c ∈ xs, p c = false) → p y = true → splitAtChar p (xs ++ y :: r) = (xs, some r) := by
  intro xs
  induction xs with
  | nil =>
    intro y r _ hy
    simp [splitAtChar, hy]
  | cons c t ih =>
    intro y r h hy
    have hc := h c (by simp)
    simp [splitAtChar, hc, ih y r (fun d hd => h d (by simp [hd])) hy]

lemma isDigit_beq_false {c : Char} (hc : c.isDigit = true) (d : Char)
    (hd : d.isDigit = false) : (c == d) = false := by
  rw [beq_eq_false_iff_ne]
  rintro rfl
  rw [hc] at hd
  exact absurd hd (by simp)

lemma parseUnsigned_natDigits_pad3 (a m : Nat) (hm : m < 1000) :
    parseUnsigned (natDigits a ++ '.' :: pad3 m) = (a : ℚ) + (m : ℚ) / 1000 := by
  have hnoE : ∀ c ∈ natDigits a ++ '.' :: pad3 m,
      (fun c => c == 'e' || c == 'E') c = false := by
    intro c hc
    rcases List.mem_append.mp hc with h | h
    · have hd := natDigits_all_digit a c h
      simp [isDigit_beq_false hd 'e' (by decide), isDigit_beq_false hd 'E' (by decide)]
    · rcases List.mem_cons.mp h with rfl | h2
      · decide
      · have hd := pad3_all_digit hm c h2
        simp [isDigit_beq_false hd 'e' (by decide), isDigit_beq_false hd 'E' (by decide)]
  have hnoDot : ∀ c ∈ natDigits a, (fun c => c == '.') c = false := fun c hc =>
    isDigit_beq_false (natDigits_all_digit a c hc) '.' (by decide)
  simp only [parseUnsigned, splitAtChar_no _ hnoE,
    splitAtChar_first (natDigits a) '.' (pad3 m) hnoDot (by decide)]
  simp only [fracVal]
  rw [digitsToNat_natDigits, digitsToNat_pad3 hm]
  norm_num [pad3]

lemma parseFloat_fmt3 (q : ℚ) :
    parseFloat (fmt3 q) = ((rhe (q * 1000) : ℤ) : ℚ) / 1000 := by
  have hmod := Nat.div_add_mod (rhe (q * 1000)).natAbs 1000
  have hcast : (1000 : ℚ) * (((rhe (q * 1000)).natAbs / 1000 : ℕ) : ℚ)
      + (((rhe (q * 1000)).natAbs % 1000 : ℕ) : ℚ)
      = (((rhe (q * 1000)).natAbs : ℕ) : ℚ) := by
    exact_mod_cast hmod
  by_cases hneg : q < 0
  · have hd : decide (q < 0) = true := by simpa using hneg
    have hle : rhe (q * 1000) ≤ 0 :=
      rhe_nonpos (mul_neg_of_neg_of_pos hneg (by norm_num))
    have hshape : fmt3 q = '-' :: (natDigits ((rhe (q * 1000)).natAbs / 1000)
        ++ '.' :: pad3 ((rhe (q * 1000)).natAbs % 1000)) := by
      simp [fmt3, fmtChunk, renderChunk, fracChars, hd]
    rw [hshape]
    have hred : parseFloat ('-' :: (natDigits ((rhe (q * 1000)).natAbs / 1000)
        ++ '.' :: pad3 ((rhe (q * 1000)).natAbs % 1000)))
        = -(parseUnsigned (natDigits ((rhe (q * 1000)).natAbs / 1000)
            ++ '.' :: pad3 ((rhe (q * 1000)).natAbs % 1000))) := by
      simp [parseFloat]
    rw [hred, parseUnsigned_natDigits_pad3 _ _ (Nat.mod_lt _ (by omega))]
    have habs : (((rhe (q * 1000)).natAbs : ℕ) : ℚ) = -((rhe (q * 1000) : ℤ) : ℚ) := by
      rw [Int.cast_natAbs, abs_of_nonpos hle]
      push_cast
      ring
    rw [habs] at hcast
    field_simp
    linarith
  · have hd : decide (q < 0) = false := by simpa using hneg
    have hge : (0 : ℤ) ≤ rhe (q * 1000) :=
      rhe_nonneg (mul_nonneg (not_lt.mp hneg) (by norm_num))
    have hshape : fmt3 q = natDigits ((rhe (q * 1000)).natAbs / 1000)
        ++ '.' :: pad3 ((rhe (q * 1000)).natAbs % 1000) := by
      simp [fmt3, fmtChunk, renderChunk, fracChars, hd]
    rw [hshape]
    have hne : natDigits ((rhe (q * 1000)).natAbs / 1000) ≠ [] := natDigits_ne_nil _
    have hred : parseFloat (natDigits ((rhe (q * 1000)).natAbs / 1000)
        ++ '.' :: pad3 ((rhe (q * 1000)).natAbs % 1000))
        = parseUnsigned (natDigits ((rhe (q * 1000)).natAbs / 1000)
            ++ '.' :: pad3 ((rhe (q * 1000)).natAbs % 1000)) := by
      cases hnd : natDigits ((rhe (q * 1000)).natAbs / 1000) with
      | nil => exact absurd hnd hne
      | cons d ds =>
        have hdd : d.isDigit = true := by
          have := natDigits_all_digit ((rhe (q * 1000)).natAbs / 1000) d (by rw [hnd]; simp)
          exact this
        have hdp : ¬(d = '+') := by rintro rfl; simp at hdd
        have hdm : ¬(d = '-') := by rintro rfl; simp at hdd
        simp [parseFloat, hdp, hdm]
    rw [hred, parseUnsigned_natDigits_pad3 _ _ (Nat.mod_lt _ (by omega))]
    have habs : (((rhe (q * 1000)).natAbs : ℕ) : ℚ) = ((rhe (q * 1000) : ℤ) : ℚ) := by
      rw [Int.cast_natAbs, abs_of_nonneg hge]
    rw [habs] at hcast
    field_simp
    linarith

/-- The 3-decimal formatted value is within `1/1000` of the original. -/
lemma fmt3_value_close (w : ℚ) : |parseFloat (fmt3 w) - w| ≤ 1/1000 := by
  rw [parseFloat_fmt3]
  have h := rhe_dist (w * 1000)
  have heq : ((rhe (w * 1000) : ℤ) : ℚ) / 1000 - w
      = (((rhe (w * 1000) : ℤ) : ℚ) - w * 1000) / 1000 := by ring
  rw [heq, abs_div]
  rw [abs_le] at h
  rw [show |(1000 : ℚ)| = 1000 by norm_num]
  rw [div_le_iff₀ (by norm_num : (0 : ℚ) < 1000)]
  rw [abs_le]
  constructor <;> linarith [abs_le.mp (rhe_dist (w * 1000))]

lemma fmtChunk_parse_fmt3 (v : ℚ) (hv : v < 0 → rhe (v * 1000) ≠ 0) :
    fmtChunk (parseFloat (fmt3 v)) = fmtChunk v := by
  rw [parseFloat_fmt3]
  unfold fmtChunk
  have h : rhe ((((rhe (v * 1000) : ℤ) : ℚ) / 1000) * 1000) = rhe (v * 1000) := by
    rw [div_mul_cancel₀]
    · exact rhe_intCast _
    · norm_num
  rw [h]
  have hsign : decide ((((rhe (v * 1000) : ℤ) : ℚ) / 1000) < 0) = decide (v < 0) := by
    by_cases hq : v < 0
    · have h1 : rhe (v * 1000) ≤ 0 :=
        rhe_nonpos (mul_neg_of_neg_of_pos hq (by norm_num))
      have h2 : rhe (v * 1000) < 0 := lt_of_le_of_ne h1 (hv hq)
      have h3 : (((rhe (v * 1000) : ℤ) : ℚ) / 1000) < 0 :=
        div_neg_of_neg_of_pos (by exact_mod_cast h2) (by norm_num)
      simp [h3, hq]
    · have h1 : (0 : ℤ) ≤ rhe (v * 1000) :=
        rhe_nonneg (mul_nonneg (not_lt.mp hq) (by norm_num))
      have h3 : (0 : ℚ) ≤ ((rhe (v * 1000) : ℤ) : ℚ) / 1000 :=
        div_nonneg (by exact_mod_cast h1) (by norm_num)
      simp [not_lt.mpr h3, hq]
  rw [hsign]

lemma parseFloat_fmt3_idem (v : ℚ) :
    parseFloat (fmt3 (parseFloat (fmt3 v))) = parseFloat (fmt3 v) := by
  have h1 := parseFloat_fmt3 v
  rw [h1, parseFloat_fmt3]
  rw [div_mul_cancel₀]
  · rw [rhe_intCast]
  · norm_num

lemma sepChars_updateNums : ∀ (cs : List Chunk) (vs : List ℚ),
    sepChars (updateNums cs vs) = sepChars cs := by
  intro cs
  induction cs with
  | nil => intro vs; rfl
  | cons c r ih =>
    intro vs
    cases c with
    | sep ch =>
      show ch :: sepChars (updateNums r vs) = ch :: sepChars r
      rw [ih vs]
    | num neg ip fp =>
      cases vs with
      | nil =>
        show sepChars (updateNums r []) = sepChars r
        exact ih []
      | cons v vs2 =>
        show sepChars (updateNums r vs2) = sepChars r
        exact ih vs2

lemma getD_map_fmt3 : ∀ (l : List ℚ) (i : Nat), i < l.length →
    (l.map fmt3).getD i [] = fmt3 (l.getD i 0)
  | [], i, h => by simp at h
  | x :: r, 0, _ => rfl
  | x :: r, i + 1, h => by
    simp only [List.map_cons, List.getD_cons_succ]
    exact getD_map_fmt3 r i (by simp at h; omega)

lemma getD_map_parseFloat : ∀ (l : List (List Char)) (i : Nat), i < l.length →
    (l.map parseFloat).getD i 0 = parseFloat (l.getD i [])
  | [], i, h => by simp at h
  | x :: r, 0, _ => rfl
  | x :: r, i + 1, h => by
    simp only [List.map_cons, List.getD_cons_succ]
    exact getD_map_parseFloat r i (by simp at h; omega)

lemma altVals_getD : ∀ (ns : List ℚ) (dx dy : ℚ) (i : Nat), i < ns.length →
    (altVals ns dx dy).getD i 0 = ns.getD i 0 + (if i % 2 = 0 then dx else dy)
  | [], _, _, i, h => by simp at h
  | [x], dx, dy, 0, _ => by simp [altVals]
  | [x], dx, dy, i + 1, h => by simp at h
  | x :: y :: r, dx, dy, 0, _ => by simp [altVals]
  | x :: y :: r, dx, dy, 1, _ => by simp [altVals]
  | x :: y :: r, dx, dy, i + 2, h => by
    have hlt : i < r.length := by simp at h; omega
    have hrec := altVals_getD r dx dy i hlt
    have hp : (i + 2) % 2 = i % 2 := by omega
    simp only [altVals, List.getD_cons_succ]
    rw [hrec, hp]

lemma altVals_zero : ∀ ns : List ℚ, altVals ns 0 0 = ns
  | [] => rfl
  | [x] => by simp [altVals]
  | x :: y :: r => by simp [altVals, altVals_zero r]

lemma updateNums_updateNums : ∀ (cs : List Chunk) (vs ws : List ℚ),
    (numTokens cs).length = vs.length → (numTokens cs).length = ws.length →
    updateNums (updateNums cs vs) ws = updateNums cs ws := by
  intro cs
  induction cs with
  | nil => intro vs ws _ _; rfl
  | cons c r ih =>
    intro vs ws hv hw
    cases c with
    | sep ch =>
      show Chunk.sep ch :: updateNums (updateNums r vs) ws = Chunk.sep ch :: updateNums r ws
      rw [ih vs ws hv hw]
    | num neg ip fp =>
      cases vs with
      | nil => simp [numTokens] at hv
      | cons v vs2 =>
        cases ws with
        | nil => simp [numTokens] at hw
        | cons w ws2 =>
          show fmtChunk w :: updateNums (updateNums r vs2) ws2
            = fmtChunk w :: updateNums r ws2
          rw [ih vs2 ws2 (by simpa [numTokens] using hv) (by simpa [numTokens] using hw)]

lemma updateNums_map_congr : ∀ (cs : List Chunk) (vs : List ℚ) (f : ℚ → ℚ),
    (∀ v ∈ vs, fmtChunk (f v) = fmtChunk v) →
    updateNums cs (vs.map f) = updateNums cs vs := by
  intro cs
  induction cs with
  | nil => intro vs f _; rfl
  | cons c r ih =>
    intro vs f hf
    cases c with
    | sep ch =>
      show Chunk.sep ch :: updateNums r (vs.map f) = Chunk.sep ch :: updateNums r vs
      rw [ih vs f hf]
    | num neg ip fp =>
      cases vs with
      | nil => rfl
      | cons v vs2 =>
        show fmtChunk (f v) :: updateNums r (vs2.map f) = fmtChunk v :: updateNums r vs2
        rw [hf v (by simp), ih vs2 f (fun w hw => hf w (by simp [hw]))]

/-! ## Claims C1 and C2 -/

/-- **C1** (amended: restricted to well separated path strings — literals
are plain decimals with an optional minus sign, and every non-literal
character is neither a digit nor one of `.`, `e`, `E`, `+`, `-`, with no
two literals adjacent; ordinary SVG path data has this shape).  For every
such string and every offset `(dx, dy)`: the rewriter produces a string
whose ordered numeric literal sequence (under the `FLOAT_RE` token grammar)
has the same length as the input's, every even-indexed literal equals the
original plus `dx` and every odd-indexed literal equals the original plus
`dy` within the 0.001 tolerance of 3-decimal output, and the non-numeric
characters are preserved verbatim in their original order.  Over arbitrary
strings the claim is false (see the counterexample): re-tokenizing the
rewritten string can produce a different literal sequence. -/
theorem c1_rewrite_offsets_pairs (cs : List Chunk) (hwf : WFB cs = true) (dx dy : ℚ) :
    (findall (add_offset_to_path_d (render cs) dx dy)).length
        = (findall (render cs)).length
    ∧ (∀ i, i < (findall (render cs)).length →
        |parseFloat ((findall (add_offset_to_path_d (render cs) dx dy)).getD i [])
          - (parseFloat ((findall (render cs)).getD i [])
              + (if i % 2 = 0 then dx else dy))| ≤ 1/1000)
    ∧ passthru (add_offset_to_path_d (render cs) dx dy) = passthru (render cs) := by
  have hmaster := add_offset_render cs hwf dx dy
  have hwf2 : WFB (updateNums cs (altVals ((numTokens cs).map parseFloat) dx dy)) = true :=
    WFB_updateNums _ hwf
  have hlen1 : (numTokens cs).length
      = (altVals ((numTokens cs).map parseFloat) dx dy).length := by
    rw [altVals_length, List.length_map]
  have htok2 : numTokens (updateNums cs (altVals ((numTokens cs).map parseFloat) dx dy))
      = (altVals ((numTokens cs).map parseFloat) dx dy).map fmt3 :=
    numTokens_updateNums cs _ hlen1
  have hfr : findall (render cs) = numTokens cs := findall_render hwf
  have hfr2 := findall_render hwf2
  refine ⟨?_, ?_, ?_⟩
  · rw [hmaster, hfr2, htok2, hfr, List.length_map, altVals_length, List.length_map]
  · intro i hi
    rw [hfr] at hi
    rw [hmaster, hfr2, htok2, hfr]
    rw [getD_map_fmt3 _ i (by rw [altVals_length, List.length_map]; exact hi)]
    rw [altVals_getD _ dx dy i (by rw [List.length_map]; exact hi)]
    rw [getD_map_parseFloat _ i hi]
    exact fmt3_value_close _
  · rw [hmaster, passthru_render hwf, passthru_render hwf2, sepChars_updateNums]

/-- A concrete well separated path string, `"M10 -2.5"`. -/
def c1chunks : List Chunk :=
  [.sep 'M', .num false ['1', '0'] none, .sep ' ', .num true ['2'] (some ['5'])]

/-- Witness for C1: the amended theorem instantiated at `"M10 -2.5"` with
offset `(1, 2)`. -/
theorem c1_rewrite_offsets_pairs_witness :
    WFB c1chunks = true
    ∧ ((findall (add_offset_to_path_d (render c1chunks) 1 2)).length
          = (findall (render c1chunks)).length
        ∧ (∀ i, i < (findall (render c1chunks)).length →
            |parseFloat ((findall (add_offset_to_path_d (render c1chunks) 1 2)).getD i [])
              - (parseFloat ((findall (render c1chunks)).getD i [])
                  + (if i % 2 = 0 then (1 : ℚ) else 2))| ≤ 1/1000)
        ∧ passthru (add_offset_to_path_d (render c1chunks) 1 2)
            = passthru (render c1chunks)) :=
  ⟨by decide, c1_rewrite_offsets_pairs c1chunks (by decide) 1 2⟩

/-- Counterexample to C1 as stated ("for every path-data string"): on the
input `"..5"` with offset `(1, 2)` the rewriter output `".1.500"`
re-tokenizes as two literals while the input has one, so the output literal
sequence does not have the same length as the input's. -/
theorem c1_counterexample :
    (findall (add_offset_to_path_d ['.', '.', '5'] 1 2)).length
      ≠ (findall ['.', '.', '5']).length := by
  with_unfolding_all decide

/-- **C2** (amended; the claim as stated is false, and the zero-offset
rewrite is not even idempotent after ONE application on every well
separated path string): on a well separated path string the zero-offset
rewrite stabilizes after TWO applications —
`rewrite(rewrite(rewrite(s,0,0),0,0),0,0) = rewrite(rewrite(s,0,0),0,0)` —
and one application is already a fixed point whenever no literal value is
strictly negative yet rounds to zero at three decimals.  (Such a literal is
printed `-0.000` — Python's `f"{x:.3f}"` keeps the sign of the value — and
the next rewrite re-parses it as zero and re-prints it as `0.000`; see the
counterexample.) -/
theorem c2_zero_offset_idempotent (cs : List Chunk) (hwf : WFB cs = true) :
    add_offset_to_path_d
        (add_offset_to_path_d (add_offset_to_path_d (render cs) 0 0) 0 0) 0 0
      = add_offset_to_path_d (add_offset_to_path_d (render cs) 0 0) 0 0
    ∧ ((∀ v ∈ (numTokens cs).map parseFloat, v < 0 → rhe (v * 1000) ≠ 0) →
        add_offset_to_path_d (add_offset_to_path_d (render cs) 0 0) 0 0
          = add_offset_to_path_d (render cs) 0 0) := by
  have hlen0 : (numTokens cs).length = ((numTokens cs).map parseFloat).length := by
    rw [List.length_map]
  have h1 := add_offset_render cs hwf 0 0
  rw [altVals_zero] at h1
  have hwf1 : WFB (updateNums cs ((numTokens cs).map parseFloat)) = true :=
    WFB_updateNums _ hwf
  have htok1 : numTokens (updateNums cs ((numTokens cs).map parseFloat))
      = ((numTokens cs).map parseFloat).map fmt3 :=
    numTokens_updateNums cs _ hlen0
  have h2 := add_offset_render (updateNums cs ((numTokens cs).map parseFloat)) hwf1 0 0
  have hmm1 : List.map parseFloat (List.map fmt3 ((numTokens cs).map parseFloat))
      = ((numTokens cs).map parseFloat).map (parseFloat ∘ fmt3) :=
    List.map_map _ _ _
  rw [altVals_zero, htok1, hmm1] at h2
  have hlenG : (numTokens cs).length
      = (((numTokens cs).map parseFloat).map (parseFloat ∘ fmt3)).length := by
    rw [List.length_map, List.length_map]
  rw [updateNums_updateNums cs ((numTokens cs).map parseFloat)
    (((numTokens cs).map parseFloat).map (parseFloat ∘ fmt3)) hlen0 hlenG] at h2
  have hwf2 : WFB (updateNums cs
      (((numTokens cs).map parseFloat).map (parseFloat ∘ fmt3))) = true :=
    WFB_updateNums _ hwf
  have htok2 : numTokens (updateNums cs
      (((numTokens cs).map parseFloat).map (parseFloat ∘ fmt3)))
      = (((numTokens cs).map parseFloat).map (parseFloat ∘ fmt3)).map fmt3 :=
    numTokens_updateNums cs _ hlenG
  have h3 := add_offset_render (updateNums cs
    (((numTokens cs).map parseFloat).map (parseFloat ∘ fmt3))) hwf2 0 0
  have hmm2 : List.map parseFloat (List.map fmt3
        ((((numTokens cs).map parseFloat).map (parseFloat ∘ fmt3))))
      = (((numTokens cs).map parseFloat).map (parseFloat ∘ fmt3)).map (parseFloat ∘ fmt3) :=
    List.map_map _ _ _
  rw [altVals_zero, htok2, hmm2] at h3
  have hlenGG : (numTokens cs).length
      = ((((numTokens cs).map parseFloat).map (parseFloat ∘ fmt3)).map
          (parseFloat ∘ fmt3)).length := by
    rw [List.length_map, List.length_map, List.length_map]
  rw [updateNums_updateNums cs
    (((numTokens cs).map parseFloat).map (parseFloat ∘ fmt3))
    ((((numTokens cs).map parseFloat).map (parseFloat ∘ fmt3)).map (parseFloat ∘ fmt3))
    hlenG hlenGG] at h3
  have hidem : (((numTokens cs).map parseFloat).map (parseFloat ∘ fmt3)).map
      (parseFloat ∘ fmt3) = ((numTokens cs).map parseFloat).map (parseFloat ∘ fmt3) := by
    have hmm3 := List.map_map (parseFloat ∘ fmt3) (parseFloat ∘ fmt3)
      ((numTokens cs).map parseFloat)
    rw [hmm3]
    exact List.map_congr_left (fun v _ => parseFloat_fmt3_idem v)
  refine ⟨?_, ?_⟩
  · rw [h1, h2, h3, hidem]
  · intro hcond
    rw [h1, h2]
    exact congrArg render
      (updateNums_map_congr cs ((numTokens cs).map parseFloat) (parseFloat ∘ fmt3)
        (fun v hv => fmtChunk_parse_fmt3 v (hcond v hv)))

/-- A concrete well separated path string, `"L7 8.25"`. -/
def c2chunks : List Chunk :=
  [.sep 'L', .num false ['7'] none, .sep ' ', .num false ['8'] (some ['2', '5'])]

/-- Witness for C2: the amended theorem instantiated at `"L7 8.25"`, where
no literal is negative, so one zero-offset rewrite is already a fixed point
(and the second application is stable in any case). -/
theorem c2_zero_offset_idempotent_witness :
    WFB c2chunks = true
    ∧ (∀ v ∈ (numTokens c2chunks).map parseFloat, v < 0 → rhe (v * 1000) ≠ 0)
    ∧ add_offset_to_path_d
          (add_offset_to_path_d (add_offset_to_path_d (render c2chunks) 0 0) 0 0) 0 0
        = add_offset_to_path_d (add_offset_to_path_d (render c2chunks) 0 0) 0 0
    ∧ add_offset_to_path_d (add_offset_to_path_d (render c2chunks) 0 0) 0 0
        = add_offset_to_path_d (render c2chunks) 0 0 :=
  ⟨by decide, by with_unfolding_all decide,
    (c2_zero_offset_idempotent c2chunks (by decide)).1,
    (c2_zero_offset_idempotent c2chunks (by decide)).2 (by with_unfolding_all decide)⟩

/-- The well separated path string `"M -0.0001 5"`. -/
def c2neg : List Chunk :=
  [.sep 'M', .sep ' ', .num true ['0'] (some ['0', '0', '0', '1']), .sep ' ',
   .num false ['5'] none]

/-- Counterexample to C2 as stated: the zero-offset rewrite is NOT
idempotent after the first application, even on a well separated path
string.  On `"M -0.0001 5"` the first rewrite prints the negative literal
as `-0.000` (Python's `f"{x:.3f}"` keeps the sign of the value), giving
`"M -0.000 5.000"`; the second rewrite re-parses `-0.000` as zero (and
`-0.0 + 0` is `+0.0`) and prints `0.000`, giving `"M 0.000 5.000"`. -/
theorem c2_counterexample :
    WFB c2neg = true
    ∧ add_offset_to_path_d (render c2neg) 0 0 = "M -0.000 5.000".toList
    ∧ add_offset_to_path_d (add_offset_to_path_d (render c2neg) 0 0) 0 0
        = "M 0.000 5.000".toList
    ∧ add_offset_to_path_d (add_offset_to_path_d (render c2neg) 0 0) 0 0
        ≠ add_offset_to_path_d (render c2neg) 0 0 := by
  with_unfolding_all decide

/-! ## XML documents

`lxml` element trees are modelled as rose trees of tag, attribute list and
children.  In-place mutation (attribute pops, coordinate rewrites) is
modelled by functions returning the mutated tree. -/

/-- An XML element: tag, attributes (unique keys), children. -/
inductive XmlNode where
  | mk (tag : String) (attrs : List (String × String)) (children : List XmlNode)

/-- The element's tag. -/
def XmlNode.tagOf : XmlNode → String
  | .mk t _ _ => t

/-- The element's attribute list. -/
def XmlNode.attrsOf : XmlNode → List (String × String)
  | .mk _ a _ => a

/-- The element's children. -/
def XmlNode.childrenOf : XmlNode → List XmlNode
  | .mk _ _ c => c

/-- `element.get(key)`: the attribute value, or `None` when absent. -/
def getAttr (n : XmlNode) (key : String) : Option String :=
  ((n.attrsOf).find? (fun a => a.1 == key)).map (fun a => a.2)

mutual
/-- All proper descendants of a node in document (pre-)order, as enumerated
by `root.xpath(".//tag")` and `root.find(".//tag")`. -/
def descendants : XmlNode → List XmlNode
  | .mk _ _ cs => descendantsL cs

/-- Descendant-or-self enumeration of a forest, document order. -/
def descendantsL : List XmlNode → List XmlNode
  | [] => []
  | c :: r => c :: descendants c ++ descendantsL r
end

/-- Python truthiness of an optional string: present and non-empty. -/
def truthyAttr (v : Option String) : Bool :=
  match v with
  | none => false
  | some s => !s.isEmpty

/-- `extract_components(root)` (lines 37–45): walk `root.xpath(".//element")`
in document order and keep `(name, package)` whenever `if name and package`
holds — both attributes present and non-empty. -/
def extract_components (root : XmlNode) : List (String × String) :=
  (descendants root).filterMap fun e =>
    if e.tagOf == "element" then
      match getAttr e "name", getAttr e "package" with
      | some n, some p => if !n.isEmpty && !p.isEmpty then some (n, p) else none
      | some _, none => none
      | none, _ => none
    else none

/-! ## Board outline extraction -/

/-- The exceptions the numeric conversions of the script can raise. -/
inductive PyErr where
  | typeError
  | valueError
deriving DecidableEq

/-- `float(s)` for an attribute string: `some` value when `s` is a float
literal, `none` for Python's `ValueError`.  (Idealisation of the builtin:
it accepts the `FLOAT_RE`-shaped finite literals; Python additionally
accepts forms such as `"1."` or surrounding whitespace, which nothing in
the claims uses.) -/
def pyFloat (s : String) : Option ℚ :=
  match matchFloat s.data with
  | some (t, []) => some (parseFloat t)
  | _ => none

/-- `float(wire.get(attr))`: a missing attribute is `float(None)` — a
`TypeError`; a non-numeric string raises `ValueError`. -/
def parseCoord (v : Option String) : Except PyErr ℚ :=
  match v with
  | none => .error .typeError
  | some s =>
    match pyFloat s with
    | some q => .ok q
    | none => .error .valueError

/-- Parse one `<wire>` element: `x1`, `y1`, `x2`, `y2` in source order
(lines 216–219). -/
def parseWire (w : XmlNode) : Except PyErr ((ℚ × ℚ) × (ℚ × ℚ)) := do
  let x1 ← parseCoord (getAttr w "x1")
  let y1 ← parseCoord (getAttr w "y1")
  let x2 ← parseCoord (getAttr w "x2")
  let y2 ← parseCoord (getAttr w "y2")
  return ((x1, y1), (x2, y2))

/-- Sequential fallible map; the first failure aborts the whole loop, as the
unhandled exception does in Python. -/
def mapExcept {α β : Type} (f : α → Except PyErr β) : List α → Except PyErr (List β)
  | [] => .ok []
  | a :: r =>
    match f a with
    | .error e => .error e
    | .ok b =>
      match mapExcept f r with
      | .error e => .error e
      | .ok bs => .ok (b :: bs)

/-- Both endpoints of every segment, in order (lines 220–222). -/
def collectPoints : List ((ℚ × ℚ) × (ℚ × ℚ)) → List (ℚ × ℚ)
  | [] => []
  | (p, q) :: r => p :: q :: collectPoints r

/-- The `seen`-set deduplication loop (lines 230–235): keep a point exactly
when no earlier-inserted point is equal to it (exact equality), first-seen
order. -/
def dedupSeen : List (ℚ × ℚ) → List (ℚ × ℚ) → List (ℚ × ℚ)
  | [], _ => []
  | p :: r, seen => if p ∈ seen then dedupSeen r seen else p :: dedupSeen r (p :: seen)

/-- Deduplication starting from an empty `seen` set. -/
def dedupFirstSeen (ps : List (ℚ × ℚ)) : List (ℚ × ℚ) := dedupSeen ps []

/-- `MM_TO_MILS = 39.3701` (line 240). -/
def MM_TO_MILS : ℚ := 393701 / 10000

/-- Millimetres to mils for one point (lines 241–245). -/
def convMils (p : ℚ × ℚ) : ℚ × ℚ := (p.1 * MM_TO_MILS, p.2 * MM_TO_MILS)

/-- The wire-processing body of `extract_board_outline` (lines 212–247):
parse every wire (a bad wire raises, aborting everything), collect both
endpoints, return `None` when there are no points, else dedup in first-seen
order and convert to mils. -/
def outline_of_wires (wires : List XmlNode) : Except PyErr (Option (List (ℚ × ℚ))) :=
  match mapExcept parseWire wires with
  | .error e => .error e
  | .ok segs =>
    if (collectPoints segs).isEmpty then .ok none
    else .ok (some ((dedupFirstSeen (collectPoints segs)).map convMils))

/-- `root.find(".//plain")`: the first descendant tagged `plain`. -/
def findPlain (root : XmlNode) : Option XmlNode :=
  (descendants root).find? (fun n => n.tagOf == "plain")

/-- `extract_board_outline(root)` (lines 205–247): `None` when there is no
`<plain>` element, else process its direct `<wire>` children
(`plain.findall("wire")`). -/
def extract_board_outline (root : XmlNode) : Except PyErr (Option (List (ℚ × ℚ))) :=
  match findPlain root with
  | none => .ok none
  | some plain => outline_of_wires (plain.childrenOf.filter (fun n => n.tagOf == "wire"))

/-! ## Artwork offsetting and composition -/

/-- Python `str(float)` of a stored coordinate; modelled as an injective
rendering of the exact rational (`num` or `num/den`).  The claims depend
only on which value is stored, never on its decimal spelling. -/
def pyStr (q : ℚ) : String :=
  String.mk ((if q.num < 0 then ['-'] else []) ++ natDigits q.num.natAbs
    ++ (if q.den = 1 then [] else '/' :: natDigits q.den))

/-- `str(float(v) + off)` under `try/except pass`: offset a numeric
attribute, keep it unchanged when it does not parse. -/
def offsetNumStr (s : String) (off : ℚ) : String :=
  match pyFloat s with
  | some v => pyStr (v + off)
  | none => s

/-- A whitespace character for `str.split()`. -/
def isSpace (c : Char) : Bool :=
  c == ' ' || c == '\t' || c == '\n' || c == '\r'

/-- Fueled `str.split()`: split on whitespace runs, dropping empties. -/
def splitWsAux : Nat → List Char → List (List Char)
  | 0, _ => []
  | _ + 1, [] => []
  | fuel + 1, c :: r =>
    if isSpace c then splitWsAux fuel r
    else (c :: r.takeWhile (fun d => !(isSpace d)))
      :: splitWsAux fuel (r.dropWhile (fun d => !(isSpace d)))

/-- `s.split()` (whitespace, empties dropped). -/
def splitWs (l : List Char) : List (List Char) := splitWsAux l.length l

/-- `pt.split(',')`: split at every comma, keeping empty parts. -/
def splitComma : List Char → List (List Char)
  | [] => [[]]
  | c :: r =>
    if c = ',' then [] :: splitComma r
    else (c :: (splitComma r).headD []) :: (splitComma r).tail

/-- Join with single spaces (`" ".join(...)`). -/
def joinSpaces : List (List Char) → List Char
  | [] => []
  | [x] => x
  | x :: y :: r => x ++ ' ' :: joinSpaces (y :: r)

/-- Offset one point `"x,y"` of a `points` attribute (lines 124–135):
`px, py = pt.split(',')` and both `float` conversions sit inside
`try/except`, so anything that is not exactly two comma-separated floats is
kept unchanged; a point without a comma is kept unchanged. -/
def offsetPoint (pt : List Char) (dx dy : ℚ) : List Char :=
  if pt.contains ',' then
    match splitComma pt with
    | [px, py] =>
      match pyFloat (String.mk px), pyFloat (String.mk py) with
      | some x, some y => (pyStr (x + dx)).data ++ ',' :: (pyStr (y + dy)).data
      | _, _ => pt
    | _ => pt
  else pt

/-- The `points` attribute rewrite (lines 121–136): split on whitespace,
offset each pair, re-join with single spaces. -/
def offsetPoints (s : String) (dx dy : ℚ) : String :=
  String.mk (joinSpaces ((splitWs s.data).map (fun pt => offsetPoint pt dx dy)))

/-- Offset a single attribute according to its key, as the per-attribute
blocks of `offset_svg_coords` do (`x`/`cx` get `x_off`, `y`/`cy` get
`y_off`, `points` and `d` get both, everything else is untouched). -/
def offsetAttrPair (dx dy : ℚ) : (String × String) → (String × String)
  | (k, v) =>
    if k == "x" || k == "cx" then (k, offsetNumStr v dx)
    else if k == "y" || k == "cy" then (k, offsetNumStr v dy)
    else if k == "points" then (k, offsetPoints v dx dy)
    else if k == "d" then (k, String.mk (add_offset_to_path_d v.data dx dy))
    else (k, v)

mutual
/-- `offset_svg_coords(svg_root, x_off, y_off)` (lines 92–142): rewrite the
coordinate-bearing attributes of every element of the tree. -/
def offsetSvg : XmlNode → ℚ → ℚ → XmlNode
  | .mk t attrs cs, dx, dy => .mk t (attrs.map (offsetAttrPair dx dy)) (offsetSvgL cs dx dy)

/-- `offsetSvg` over a forest. -/
def offsetSvgL : List XmlNode → ℚ → ℚ → List XmlNode
  | [], _, _ => []
  | c :: r, dx, dy => offsetSvg c dx dy :: offsetSvgL r dx dy
end

/-- `attrib.pop(key, None)`; XML attribute keys are unique, so filtering
equals removing the single entry. -/
def popKey (attrs : List (String × String)) (key : String) : List (String × String) :=
  attrs.filter (fun a => !(a.1 == key))

/-- Lines 188–190: strip the `width`, `height` and `viewBox` attributes of
an artwork root (in place, on the parsed tree). -/
def stripDims (n : XmlNode) : XmlNode :=
  .mk n.tagOf (popKey (popKey (popKey n.attrsOf "width") "height") "viewBox") n.childrenOf

/-- Lines 183–195 for one component, with the in-place mutation made
explicit: the freshly parsed artwork root `sub_svg_root` has its dimension
attributes popped BEFORE `copy.deepcopy` takes the snapshot `part_svg`, and
the coordinate offset is then applied to the copy only.  Returns the final
values of `(sub_svg_root, part_svg)`. -/
def processComponent (sub : XmlNode) (off : ℚ × ℚ) : XmlNode × XmlNode :=
  (stripDims sub, offsetSvg (stripDims sub) off.1 off.2)

/-- Result of `match_svg` plus `parse_svg` for a package identifier: no
matching file, a file that fails to parse, or the parsed artwork root. -/
inductive ResolveResult where
  | noFile
  | parseFail
  | ok (root : XmlNode)

/-- The warnings `combine_svgs` prints (lines 180 and 185). -/
inductive Warning where
  | noSvg (package componentName : String)
  | svgParseFailed (package : String)
deriving DecidableEq

/-- The assembled output document.  Canvas numbers are kept as exact
rationals; the `groups` field holds one `<g id=name>` entry per embedded
component with the children of its offset artwork copy. -/
structure OutSvg where
  width : ℚ
  height : ℚ
  viewboxX : ℚ
  viewboxY : ℚ
  outlinePolygon : Option (List (ℚ × ℚ))
  groups : List (String × List XmlNode)

/-- The per-component loop of `combine_svgs` (lines 177–201), consuming
positions in lockstep with components (`positions[i]` for component `i`;
`main` always passes lists of equal length).  A failed lookup or parse
prints a warning and contributes no group. -/
def combineLoop : List ((String × String) × (ℚ × ℚ)) → (String → ResolveResult)
    → List (String × List XmlNode) × List Warning
  | [], _ => ([], [])
  | ((name, package), xy) :: rest, resolve =>
    match resolve package with
    | .noFile =>
      ((combineLoop rest resolve).1, .noSvg package name :: (combineLoop rest resolve).2)
    | .parseFail =>
      ((combineLoop rest resolve).1, .svgParseFailed package :: (combineLoop rest resolve).2)
    | .ok sub =>
      ((name, (processComponent sub xy).2.childrenOf) :: (combineLoop rest resolve).1,
        (combineLoop rest resolve).2)

/-- Smallest element of a nonempty list, Python `min`. -/
def minList (x : ℚ) (xs : List ℚ) : ℚ := xs.foldl min x

/-- Largest element of a nonempty list, Python `max`. -/
def maxList (x : ℚ) (xs : List ℚ) : ℚ := xs.foldl max x

/-- The extents `combine_svgs` computes, as a function of the board outline
alone: bounding box plus a fixed 200 mil width/height margin with the
view box origin 100 mils below the minimum when the outline is truthy, or
the fixed 2000×2000 default otherwise. -/
def canvasExtents (board_outline : Option (List (ℚ × ℚ))) : ℚ × ℚ × ℚ × ℚ :=
  match board_outline with
  | some (p :: ps) =>
    (maxList p.1 (ps.map Prod.fst) - minList p.1 (ps.map Prod.fst) + 200,
     maxList p.2 (ps.map Prod.snd) - minList p.2 (ps.map Prod.snd) + 200,
     minList p.1 (ps.map Prod.fst) - 100,
     minList p.2 (ps.map Prod.snd) - 100)
  | _ => (2000, 2000, 0, 0)

/-- `combine_svgs(components, positions, board_outline)` (lines 144–203):
canvas extents from the outline bounding box plus margin when the outline
is truthy (`if board_outline:` — `None` and `[]` are both falsy), else the
2000×2000 default; the outline polygon when truthy; one group per
resolvable component. -/
def combine_svgs (components : List (String × String)) (positions0 : List (ℚ × ℚ))
    (board_outline : Option (List (ℚ × ℚ))) (resolve : String → ResolveResult) :
    OutSvg × List Warning :=
  match board_outline with
  | some (p :: ps) =>
    (⟨maxList p.1 (ps.map Prod.fst) - minList p.1 (ps.map Prod.fst) + 200,
      maxList p.2 (ps.map Prod.snd) - minList p.2 (ps.map Prod.snd) + 200,
      minList p.1 (ps.map Prod.fst) - 100,
      minList p.2 (ps.map Prod.snd) - 100,
      some (p :: ps),
      (combineLoop (components.zip positions0) resolve).1⟩,
     (combineLoop (components.zip positions0) resolve).2)
  | some [] =>
    (⟨2000, 2000, 0, 0, none, (combineLoop (components.zip positions0) resolve).1⟩,
     (combineLoop (components.zip positions0) resolve).2)
  | none =>
    (⟨2000, 2000, 0, 0, none, (combineLoop (components.zip positions0) resolve).1⟩,
     (combineLoop (components.zip positions0) resolve).2)

/-- `main`'s demo grid placement (lines 268–275): component `i` is placed at
`((i % 10) * 500, (i // 10) * 500)` mils, regardless of any declared
position. -/
def positions (n : Nat) : List (ℚ × ℚ) :=
  (List.range n).map (fun i => (((i % 10 : ℕ) : ℚ) * 500, ((i / 10 : ℕ) : ℚ) * 500))

/-- The observable outcome of `main` once the input document has parsed. -/
inductive MainOutcome where
  | crashed (e : PyErr)
  | exitedNoOutput (msg : String)
  | wroteOutput (svg : OutSvg) (warnings : List Warning)

/-- `main` after `parse_brd_file` succeeds (lines 258–284): extract the
components and the outline (an exception aborts the run), print a message
and exit 0 WITHOUT writing any output when there are no components, else
write the document `combine_svgs` assembles with grid positions. -/
def mainAfterParse (root : XmlNode) (resolve : String → ResolveResult) : MainOutcome :=
  match extract_board_outline root with
  | .error e => .crashed e
  | .ok outline =>
    if (extract_components root).isEmpty then
      .exitedNoOutput "No components found in .brd file."
    else
      .wroteOutput
        (combine_svgs (extract_components root)
          (positions (extract_components root).length) outline resolve).1
        (combine_svgs (extract_components root)
          (positions (extract_components root).length) outline resolve).2

/-- Did the run write an output document? -/
def wroteDoc : MainOutcome → Bool
  | .wroteOutput _ _ => true
  | _ => false

/-! ## Claim C3: outline deduplication -/

lemma dedupSeen_length_le : ∀ ps seen : List (ℚ × ℚ), (dedupSeen ps seen).length ≤ ps.length := by
  intro ps
  induction ps with
  | nil => intro seen; simp [dedupSeen]
  | cons p r ih =>
    intro seen
    unfold dedupSeen
    by_cases hp : p ∈ seen
    · rw [if_pos hp]
      exact le_trans (ih seen) (by simp)
    · rw [if_neg hp]
      simpa using ih (p :: seen)

lemma dedupSeen_sublist : ∀ ps seen : List (ℚ × ℚ), (dedupSeen ps seen).Sublist ps := by
  intro ps
  induction ps with
  | nil => intro seen; simp [dedupSeen]
  | cons p r ih =>
    intro seen
    unfold dedupSeen
    by_cases hp : p ∈ seen
    · rw [if_pos hp]
      exact (ih seen).cons p
    · rw [if_neg hp]
      exact (ih (p :: seen)).cons₂ p

lemma dedupSeen_mem : ∀ (ps seen : List (ℚ × ℚ)) (a : ℚ × ℚ),
    a ∈ dedupSeen ps seen ↔ (a ∈ ps ∧ a ∉ seen) := by
  intro ps
  induction ps with
  | nil => intro seen a; simp [dedupSeen]
  | cons p r ih =>
    intro seen a
    unfold dedupSeen
    by_cases hp : p ∈ seen
    · rw [if_pos hp, ih seen a]
      constructor
      · rintro ⟨h1, h2⟩
        exact ⟨by simp [h1], h2⟩
      · rintro ⟨h1, h2⟩
        rcases List.mem_cons.mp h1 with rfl | h1
        · exact absurd hp h2
        · exact ⟨h1, h2⟩
    · rw [if_neg hp]
      rw [List.mem_cons, ih (p :: seen) a]
      constructor
      · rintro (rfl | ⟨h1, h2⟩)
        · exact ⟨by simp, hp⟩
        · refine ⟨by simp [h1], fun hs => h2 (by simp [hs])⟩
      · rintro ⟨h1, h2⟩
        rcases List.mem_cons.mp h1 with rfl | h1
        · exact Or.inl rfl
        · by_cases hap : a = p
          · exact Or.inl hap
          · exact Or.inr ⟨h1, by simp [hap, h2]⟩

lemma dedupSeen_nodup : ∀ ps seen : List (ℚ × ℚ), (dedupSeen ps seen).Nodup := by
  intro ps
  induction ps with
  | nil => intro seen; simp [dedupSeen]
  | cons p r ih =>
    intro seen
    unfold dedupSeen
    by_cases hp : p ∈ seen
    · rw [if_pos hp]
      exact ih seen
    · rw [if_neg hp]
      refine List.nodup_cons.mpr ⟨fun hmem => ?_, ih (p :: seen)⟩
      exact ((dedupSeen_mem r (p :: seen) p).mp hmem).2 (by simp)

lemma dedupSeen_eq_self : ∀ ps seen : List (ℚ × ℚ), ps.Nodup → (∀ a ∈ ps, a ∉ seen) →
    dedupSeen ps seen = ps := by
  intro ps
  induction ps with
  | nil => intro seen _ _; rfl
  | cons p r ih =>
    intro seen hnd hdis
    unfold dedupSeen
    rw [if_neg (hdis p (by simp))]
    rw [ih (p :: seen) (List.nodup_cons.mp hnd).2]
    intro a ha
    have hne : a ≠ p := fun heq => (List.nodup_cons.mp hnd).1 (heq ▸ ha)
    simp only [List.mem_cons]
    rintro (rfl | hsn)
    · exact hne rfl
    · exact hdis a (by simp [ha]) hsn

lemma collectPoints_length : ∀ segs : List ((ℚ × ℚ) × (ℚ × ℚ)),
    (collectPoints segs).length = 2 * segs.length
  | [] => rfl
  | (p, q) :: r => by
    simp only [collectPoints, List.length_cons, collectPoints_length r]
    omega

lemma dedupSeen_congr : ∀ (ps s1 s2 : List (ℚ × ℚ)), (∀ a, a ∈ s1 ↔ a ∈ s2) →
    dedupSeen ps s1 = dedupSeen ps s2 := by
  intro ps
  induction ps with
  | nil => intro s1 s2 _; rfl
  | cons p r ih =>
    intro s1 s2 h
    unfold dedupSeen
    by_cases hp : p ∈ s1
    · rw [if_pos hp, if_pos ((h p).mp hp)]
      exact ih s1 s2 h
    · rw [if_neg hp, if_neg (fun h2 => hp ((h p).mpr h2))]
      rw [ih (p :: s1) (p :: s2) (fun a => by simp [h a])]

lemma dedupSeen_cons (p : ℚ × ℚ) (r seen : List (ℚ × ℚ)) :
    dedupSeen (p :: r) seen
      = if p ∈ seen then dedupSeen r seen else p :: dedupSeen r (p :: seen) := rfl

lemma dedupSeen_erase : ∀ (ps : List (ℚ × ℚ)) (p : ℚ × ℚ) (seen : List (ℚ × ℚ)),
    dedupSeen ps (p :: seen) = dedupSeen (ps.filter (fun a => decide (a ≠ p))) seen := by
  intro ps
  induction ps with
  | nil => intro p seen; rfl
  | cons q r ih =>
    intro p seen
    by_cases hqp : q = p
    · subst hqp
      rw [dedupSeen_cons, if_pos (by simp)]
      rw [show (q :: r).filter (fun a => decide (a ≠ q)) = r.filter (fun a => decide (a ≠ q))
        from by simp [List.filter_cons]]
      exact ih q seen
    · rw [show (q :: r).filter (fun a => decide (a ≠ p))
          = q :: r.filter (fun a => decide (a ≠ p)) from by simp [List.filter_cons, hqp]]
      by_cases hqs : q ∈ seen
      · rw [dedupSeen_cons, if_pos (by simp [hqs]), dedupSeen_cons, if_pos hqs]
        exact ih p seen
      · rw [dedupSeen_cons, if_neg (by simp [hqp, hqs]), dedupSeen_cons, if_neg hqs]
        congr 1
        rw [dedupSeen_congr r (q :: p :: seen) (p :: q :: seen) (fun a => by
          simp only [List.mem_cons]
          tauto)]
        exact ih p (q :: seen)

lemma dedupFirstSeen_cons (p : ℚ × ℚ) (ps : List (ℚ × ℚ)) :
    dedupFirstSeen (p :: ps) = p :: dedupFirstSeen (ps.filter (fun a => decide (a ≠ p))) := by
  show dedupSeen (p :: ps) [] = _
  rw [dedupSeen_cons, if_neg (by simp), dedupSeen_erase ps p []]
  rfl

/-- **C3** (confirmed): for every sequence of well-formed segments (wires
whose four numeric attributes all parse), the outline reconstructor collects
both endpoints of every segment and discards a point exactly when an
earlier-inserted point is equal to it (exact equality, first-seen order):
the extraction returns the deduplicated, unit-converted endpoint list; its
point count is at most `2 × segment count`, with equality when no two
endpoints coincide; the result has no duplicates, contains exactly the
collected endpoints, is a subsequence of the collection order, and keeping
a first occurrence removes precisely its later duplicates. -/
theorem c3_outline_dedup (wires : List XmlNode) (segs : List ((ℚ × ℚ) × (ℚ × ℚ)))
    (hparse : mapExcept parseWire wires = .ok segs) (hne : segs ≠ []) :
    outline_of_wires wires
        = .ok (some ((dedupFirstSeen (collectPoints segs)).map convMils))
    ∧ ((dedupFirstSeen (collectPoints segs)).map convMils).length ≤ 2 * segs.length
    ∧ ((collectPoints segs).Nodup →
        ((dedupFirstSeen (collectPoints segs)).map convMils).length = 2 * segs.length)
    ∧ (dedupFirstSeen (collectPoints segs)).Nodup
    ∧ (∀ a, a ∈ dedupFirstSeen (collectPoints segs) ↔ a ∈ collectPoints segs)
    ∧ (dedupFirstSeen (collectPoints segs)).Sublist (collectPoints segs)
    ∧ (∀ p ps, dedupFirstSeen (p :: ps)
        = p :: dedupFirstSeen (ps.filter (fun a => decide (a ≠ p)))) := by
  have hcne : (collectPoints segs).isEmpty = false := by
    cases segs with
    | nil => exact absurd rfl hne
    | cons s r => rfl
  refine ⟨?_, ?_, ?_, dedupSeen_nodup _ [], ?_, dedupSeen_sublist _ [], dedupFirstSeen_cons⟩
  · unfold outline_of_wires
    rw [hparse]
    show (if (collectPoints segs).isEmpty = true then Except.ok none
      else Except.ok (some ((dedupFirstSeen (collectPoints segs)).map convMils)))
      = Except.ok (some ((dedupFirstSeen (collectPoints segs)).map convMils))
    rw [hcne]
    simp
  · rw [List.length_map, ← collectPoints_length]
    exact dedupSeen_length_le _ []
  · intro hnd
    rw [List.length_map, ← collectPoints_length]
    unfold dedupFirstSeen
    rw [dedupSeen_eq_self _ [] hnd (by simp)]
  · intro a
    unfold dedupFirstSeen
    rw [dedupSeen_mem]
    simp

/-- A concrete pair of wires sharing one endpoint. -/
def c3wires : List XmlNode :=
  [.mk "wire" [("x1", "0"), ("y1", "0"), ("x2", "10"), ("y2", "0")] [],
   .mk "wire" [("x1", "10"), ("y1", "0"), ("x2", "10"), ("y2", "5")] []]

/-- The parsed segments of `c3wires`. -/
def c3segs : List ((ℚ × ℚ) × (ℚ × ℚ)) := [((0, 0), (10, 0)), ((10, 0), (10, 5))]

/-- Witness for C3 at two concrete wires that share an endpoint. -/
theorem c3_outline_dedup_witness :
    mapExcept parseWire c3wires = .ok c3segs
    ∧ c3segs ≠ []
    ∧ outline_of_wires c3wires
        = .ok (some ((dedupFirstSeen (collectPoints c3segs)).map convMils)) := by
  have h1 : mapExcept parseWire c3wires = .ok c3segs := by with_unfolding_all rfl
  have h2 : c3segs ≠ [] := by simp [c3segs]
  exact ⟨h1, h2, (c3_outline_dedup c3wires c3segs h1 h2).1⟩

/-! ## Claim C7: per-segment parse errors -/

lemma mapExcept_first_error : ∀ (pre : List XmlNode) (w : XmlNode) (post : List XmlNode)
    (e : PyErr), (∀ x ∈ pre, ∃ snext, parseWire x = .ok snext) → parseWire w = .error e →
    mapExcept parseWire (pre ++ w :: post) = .error e := by
  intro pre
  induction pre with
  | nil =>
    intro w post e _ hw
    show mapExcept parseWire (w :: post) = .error e
    unfold mapExcept
    rw [hw]
  | cons a r ih =>
    intro w post e hpre hw
    obtain ⟨sn, hs⟩ := hpre a (by simp)
    have ih2 := ih w post e (fun x hx => hpre x (by simp [hx])) hw
    show mapExcept parseWire (a :: (r ++ w :: post)) = .error e
    unfold mapExcept
    rw [hs, ih2]

/-- **C7** (amended; the claim as stated is false): a wire whose numeric
attributes are malformed or missing makes `extract_board_outline` raise the
corresponding unhandled exception (`TypeError` for a missing attribute,
`ValueError` for a malformed one), aborting the whole extraction — and,
since `main` installs no handler, the whole conversion — even when earlier
wires parsed fine.  There is no per-segment skip policy. -/
theorem c7_bad_wire_aborts (pre : List XmlNode) (w : XmlNode) (post : List XmlNode)
    (e : PyErr) (hpre : ∀ x ∈ pre, ∃ snext, parseWire x = .ok snext)
    (hw : parseWire w = .error e) :
    outline_of_wires (pre ++ w :: post) = .error e := by
  unfold outline_of_wires
  rw [mapExcept_first_error pre w post e hpre hw]

/-- A well-formed wire. -/
def c7goodWire : XmlNode := .mk "wire" [("x1", "0"), ("y1", "0"), ("x2", "10"), ("y2", "0")] []

/-- A wire with no `x1` attribute (`float(None)` raises `TypeError`). -/
def c7badWire : XmlNode := .mk "wire" [("y1", "5"), ("x2", "3"), ("y2", "4")] []

/-- Witness for C7: one good wire followed by one bad wire aborts with the
bad wire's `TypeError`. -/
theorem c7_bad_wire_aborts_witness :
    (∀ x ∈ [c7goodWire], ∃ snext, parseWire x = .ok snext)
    ∧ parseWire c7badWire = .error PyErr.typeError
    ∧ outline_of_wires ([c7goodWire] ++ c7badWire :: []) = .error PyErr.typeError := by
  have h1 : ∀ x ∈ [c7goodWire], ∃ snext, parseWire x = .ok snext := by
    intro x hx
    rcases List.mem_singleton.mp hx with rfl
    exact ⟨((0, 0), (10, 0)), by with_unfolding_all rfl⟩
  have h2 : parseWire c7badWire = .error PyErr.typeError := by with_unfolding_all rfl
  exact ⟨h1, h2, c7_bad_wire_aborts [c7goodWire] c7badWire [] PyErr.typeError h1 h2⟩

/-- Counterexample to C7 as stated: with a usable first wire present, a
second wire with a missing numeric attribute still aborts the whole
extraction with an unhandled exception instead of being skipped. -/
theorem c7_counterexample :
    parseWire c7goodWire = .ok ((0, 0), (10, 0))
    ∧ outline_of_wires [c7goodWire, c7badWire] = .error PyErr.typeError :=
  ⟨by with_unfolding_all rfl, by with_unfolding_all rfl⟩

/-! ## Claim C10: component extraction -/

lemma filterMap_eq_map_filter {α β : Type} (f : α → Option β) (p : α → Bool) (g : α → β)
    (h : ∀ a, f a = if p a then some (g a) else none) :
    ∀ l : List α, l.filterMap f = (l.filter p).map g := by
  intro l
  induction l with
  | nil => rfl
  | cons a r ih =>
    rw [List.filterMap_cons, List.filter_cons, h a]
    by_cases hp : p a = true
    · simp [hp, ih]
    · simp only [Bool.not_eq_true] at hp
      simp [hp, ih]

lemma extract_pointwise (e : XmlNode) :
    (if e.tagOf == "element" then
        match getAttr e "name", getAttr e "package" with
        | some n, some p => if !n.isEmpty && !p.isEmpty then some (n, p) else none
        | some _, none => none
        | none, _ => none
      else none)
    = (if (e.tagOf == "element" && truthyAttr (getAttr e "name")
          && truthyAttr (getAttr e "package")) then
        some ((getAttr e "name").getD "", (getAttr e "package").getD "")
      else none) := by
  by_cases ht : (e.tagOf == "element") = true
  · cases hn : getAttr e "name" with
    | none => simp [ht, hn, truthyAttr]
    | some nm =>
      cases hp : getAttr e "package" with
      | none => simp [ht, hn, hp, truthyAttr]
      | some pk =>
        by_cases hne : nm.isEmpty <;> by_cases hpe : pk.isEmpty <;>
          simp [ht, hn, hp, truthyAttr, hne, hpe]
  · simp only [Bool.not_eq_true] at ht
    simp [ht]

/-- **C10** (confirmed): component extraction returns exactly the
`(name, package)` pairs of the `element`-tagged descendants that carry both
attributes present and non-empty, in document order; elements lacking
either attribute (or carrying an empty one) are silently excluded — the
traversal order is shared with the document-order descendant enumeration on
both sides, and the function is total, so no error or warning arises. -/
theorem c10_extract_components (root : XmlNode) :
    extract_components root
      = ((descendants root).filter (fun e => e.tagOf == "element"
            && truthyAttr (getAttr e "name") && truthyAttr (getAttr e "package"))).map
          (fun e => ((getAttr e "name").getD "", (getAttr e "package").getD "")) := by
  unfold extract_components
  exact filterMap_eq_map_filter _ _ _ extract_pointwise (descendants root)

/-! ## Claim C6: zero components -/

/-- **C6** (amended; the claim as stated is false): a run whose document
yields zero components (and whose outline extraction does not raise) prints
the informational message and exits 0, but terminates WITHOUT writing any
output document — the zero-component check at lines 262–264 fires before
`combine_svgs` runs. -/
theorem c6_zero_components_no_output (doc : XmlNode) (resolve : String → ResolveResult)
    (o : Option (List (ℚ × ℚ))) (hcomps : extract_components doc = [])
    (houtline : extract_board_outline doc = .ok o) :
    mainAfterParse doc resolve = .exitedNoOutput "No components found in .brd file."
    ∧ wroteDoc (mainAfterParse doc resolve) = false := by
  unfold mainAfterParse
  rw [houtline, hcomps]
  exact ⟨rfl, rfl⟩

/-- A document with a drawing but no components. -/
def c6doc : XmlNode := .mk "eagle" [] [.mk "drawing" [] []]

/-- A resolver (irrelevant: the run never reaches artwork lookup). -/
def c6resolve : String → ResolveResult := fun _ => .noFile

/-- Witness for C6 at the concrete empty document. -/
theorem c6_zero_components_no_output_witness :
    extract_components c6doc = []
    ∧ extract_board_outline c6doc = .ok none
    ∧ mainAfterParse c6doc c6resolve = .exitedNoOutput "No components found in .brd file." := by
  have h1 : extract_components c6doc = [] := by with_unfolding_all rfl
  have h2 : extract_board_outline c6doc = .ok none := by with_unfolding_all rfl
  exact ⟨h1, h2, (c6_zero_components_no_output c6doc c6resolve none h1 h2).1⟩

/-- Counterexample to C6 as stated: on a zero-component document the run
exits successfully with the informational message but writes NO output
document, contradicting "rather than terminating without writing any output
document". -/
theorem c6_counterexample :
    mainAfterParse c6doc c6resolve = .exitedNoOutput "No components found in .brd file."
    ∧ wroteDoc (mainAfterParse c6doc c6resolve) = false :=
  ⟨by with_unfolding_all rfl, by with_unfolding_all rfl⟩

/-! ## The composition loop: shared lemmas -/

lemma combine_groups (components : List (String × String)) (positions0 : List (ℚ × ℚ))
    (board_outline : Option (List (ℚ × ℚ))) (resolve : String → ResolveResult) :
    (combine_svgs components positions0 board_outline resolve).1.groups
      = (combineLoop (components.zip positions0) resolve).1
    ∧ (combine_svgs components positions0 board_outline resolve).2
      = (combineLoop (components.zip positions0) resolve).2 := by
  cases board_outline with
  | none => exact ⟨rfl, rfl⟩
  | some l =>
    cases l with
    | nil => exact ⟨rfl, rfl⟩
    | cons p ps => exact ⟨rfl, rfl⟩

lemma combineLoop_cons (name package : String) (xy : ℚ × ℚ)
    (rest : List ((String × String) × (ℚ × ℚ))) (resolve : String → ResolveResult) :
    combineLoop (((name, package), xy) :: rest) resolve
      = match resolve package with
        | .noFile => ((combineLoop rest resolve).1,
            .noSvg package name :: (combineLoop rest resolve).2)
        | .parseFail => ((combineLoop rest resolve).1,
            .svgParseFailed package :: (combineLoop rest resolve).2)
        | .ok sub => ((name, (processComponent sub xy).2.childrenOf)
            :: (combineLoop rest resolve).1, (combineLoop rest resolve).2) := rfl

lemma combineLoop_all_ok : ∀ (pairs : List ((String × String) × (ℚ × ℚ)))
    (resolve : String → ResolveResult),
    (∀ c ∈ pairs, ∃ a, resolve c.1.2 = .ok a) →
    (combineLoop pairs resolve).1.length = pairs.length
    ∧ ∀ i, i < pairs.length → ∃ art,
        resolve (pairs.getD i (("", ""), (0, 0))).1.2 = .ok art
        ∧ (combineLoop pairs resolve).1.getD i ("", [])
          = ((pairs.getD i (("", ""), (0, 0))).1.1,
             (offsetSvg (stripDims art) (pairs.getD i (("", ""), (0, 0))).2.1
               (pairs.getD i (("", ""), (0, 0))).2.2).childrenOf) := by
  intro pairs
  induction pairs with
  | nil =>
    intro resolve _
    exact ⟨rfl, fun i hi => absurd hi (by simp)⟩
  | cons c rest ih =>
    intro resolve hall
    obtain ⟨⟨name, package⟩, xy⟩ := c
    obtain ⟨art, hart⟩ := hall ((name, package), xy) (by simp)
    have hloop : combineLoop (((name, package), xy) :: rest) resolve
        = ((name, (processComponent art xy).2.childrenOf) :: (combineLoop rest resolve).1,
           (combineLoop rest resolve).2) := by
      rw [combineLoop_cons, hart]
    obtain ⟨ihlen, ihget⟩ := ih resolve (fun x hx => hall x (by simp [hx]))
    constructor
    · rw [hloop]
      simp [ihlen]
    · intro i hi
      cases i with
      | zero =>
        refine ⟨art, by simpa using hart, ?_⟩
        rw [hloop]
        simp [processComponent]
      | succ j =>
        have hj : j < rest.length := by simpa using hi
        obtain ⟨a2, h1, h2⟩ := ihget j hj
        refine ⟨a2, by simpa using h1, ?_⟩
        rw [hloop]
        simpa using h2

lemma zip_getD {l1 : List (String × String)} {l2 : List (ℚ × ℚ)} {i : Nat}
    (h1 : i < l1.length) (h2 : i < l2.length) :
    (l1.zip l2).getD i (("", ""), (0, 0)) = (l1.getD i ("", ""), l2.getD i (0, 0)) := by
  have hz : i < (l1.zip l2).length := by rw [List.length_zip]; omega
  rw [List.getD_eq_getElem _ _ hz, List.getD_eq_getElem _ _ h1, List.getD_eq_getElem _ _ h2]
  exact List.getElem_zip

lemma positions_length (n : Nat) : (positions n).length = n := by simp [positions]

lemma positions_getD {n i : Nat} (h : i < n) :
    (positions n).getD i (0, 0) = (((i % 10 : ℕ) : ℚ) * 500, ((i / 10 : ℕ) : ℚ) * 500) := by
  unfold positions
  rw [List.getD_eq_getElem _ _ (by simpa using h)]
  simp

/-! ## Claim C4: placement determination -/

/-- **C4** (amended; the claim as stated is false): the placement applied to
a component's artwork is fully determined by the component's INDEX in the
extracted list — component `i` is offset by the demo grid position
`((i % 10)·500, (i / 10)·500)` mils — and extraction reads only the `name`
and `package` attributes, so the declared position and orientation play no
role at all. -/
theorem c4_placement_by_index_not_position (doc : XmlNode)
    (outline : Option (List (ℚ × ℚ))) (resolve : String → ResolveResult)
    (hall : ∀ c ∈ extract_components doc, ∃ a, resolve c.2 = .ok a) :
    (combine_svgs (extract_components doc) (positions (extract_components doc).length)
        outline resolve).1.groups.length = (extract_components doc).length
    ∧ ∀ i, i < (extract_components doc).length → ∃ art,
        resolve ((extract_components doc).getD i ("", "")).2 = .ok art
        ∧ (combine_svgs (extract_components doc)
              (positions (extract_components doc).length) outline resolve).1.groups.getD i
              ("", [])
          = (((extract_components doc).getD i ("", "")).1,
             (offsetSvg (stripDims art) (((i % 10 : ℕ) : ℚ) * 500)
                (((i / 10 : ℕ) : ℚ) * 500)).childrenOf) := by
  have hzall : ∀ c ∈ (extract_components doc).zip
      (positions (extract_components doc).length), ∃ a, resolve c.1.2 = .ok a := by
    intro c hc
    exact hall c.1 (List.of_mem_zip hc).1
  obtain ⟨hlen, hget⟩ := combineLoop_all_ok
    ((extract_components doc).zip (positions (extract_components doc).length)) resolve hzall
  have hzlen : ((extract_components doc).zip
      (positions (extract_components doc).length)).length
      = (extract_components doc).length := by
    rw [List.length_zip, positions_length, Nat.min_self]
  constructor
  · rw [(combine_groups _ _ outline resolve).1, hlen, hzlen]
  · intro i hi
    obtain ⟨art, h1, h2⟩ := hget i (by rw [hzlen]; exact hi)
    have hzget : ((extract_components doc).zip
        (positions (extract_components doc).length)).getD i (("", ""), (0, 0))
        = ((extract_components doc).getD i ("", ""),
           (((i % 10 : ℕ) : ℚ) * 500, ((i / 10 : ℕ) : ℚ) * 500)) := by
      rw [zip_getD hi (by rw [positions_length]; exact hi), positions_getD hi]
    rw [hzget] at h1 h2
    exact ⟨art, h1, by rw [(combine_groups _ _ outline resolve).1]; exact h2⟩

/-- A concrete artwork root (with a dimension attribute and one rect). -/
def c4art : XmlNode := .mk "svg" [("width", "10")] [.mk "rect" [("x", "0"), ("y", "0")] []]

/-- Element `R1`, declared at `x=0 y=0 rot=R0`. -/
def c4elem1 : XmlNode :=
  .mk "element" [("name", "R1"), ("package", "P"), ("x", "0"), ("y", "0"), ("rot", "R0")] []

/-- Element `R2`, with identical declared position and orientation. -/
def c4elem2 : XmlNode :=
  .mk "element" [("name", "R2"), ("package", "P"), ("x", "0"), ("y", "0"), ("rot", "R0")] []

/-- A document holding the two identically-placed elements. -/
def c4doc : XmlNode := .mk "eagle" [] [.mk "drawing" [] [c4elem1, c4elem2]]

/-- Every package resolves to `c4art`. -/
def c4resolve : String → ResolveResult := fun _ => .ok c4art

/-- Witness for C4 at the concrete two-component document. -/
theorem c4_placement_by_index_not_position_witness :
    (∀ c ∈ extract_components c4doc, ∃ a, c4resolve c.2 = .ok a)
    ∧ (combine_svgs (extract_components c4doc)
        (positions (extract_components c4doc).length) none c4resolve).1.groups.length
      = (extract_components c4doc).length := by
  have h1 : ∀ c ∈ extract_components c4doc, ∃ a, c4resolve c.2 = .ok a :=
    fun c _ => ⟨c4art, rfl⟩
  exact ⟨h1, (c4_placement_by_index_not_position c4doc none c4resolve h1).1⟩

/-- Counterexample to C4 as stated: two components with identical declared
`(x, y, orientation)` attributes receive different placements (their artwork
copies end up with different coordinates), because placement is the
index-based demo grid. -/
theorem c4_counterexample :
    getAttr c4elem1 "x" = getAttr c4elem2 "x"
    ∧ getAttr c4elem1 "y" = getAttr c4elem2 "y"
    ∧ getAttr c4elem1 "rot" = getAttr c4elem2 "rot"
    ∧ (((combine_svgs (extract_components c4doc)
          (positions (extract_components c4doc).length) none c4resolve).1.groups.getD 0
          ("", [])).2.headD (.mk "" [] [])).attrsOf
      ≠ (((combine_svgs (extract_components c4doc)
          (positions (extract_components c4doc).length) none c4resolve).1.groups.getD 1
          ("", [])).2.headD (.mk "" [] [])).attrsOf := by
  refine ⟨rfl, rfl, rfl, ?_⟩
  with_unfolding_all decide

/-! ## Claim C5: canvas extents -/

/-- **C5** (amended; the claim as stated is false): the canvas extents of
the composite are a function of the board outline alone — the outline's
bounding box with a fixed 200 mil width/height margin and the view box
origin 100 mils below the minima, or the fixed 2000×2000 default — for
every component list, position list and resolver; they are never expanded
to include component positions. -/
theorem c5_extents_from_outline_only (components : List (String × String))
    (positions0 : List (ℚ × ℚ)) (board_outline : Option (List (ℚ × ℚ)))
    (resolve : String → ResolveResult) :
    ((combine_svgs components positions0 board_outline resolve).1.width,
     (combine_svgs components positions0 board_outline resolve).1.height,
     (combine_svgs components positions0 board_outline resolve).1.viewboxX,
     (combine_svgs components positions0 board_outline resolve).1.viewboxY)
      = canvasExtents board_outline := by
  cases board_outline with
  | none => rfl
  | some l =>
    cases l with
    | nil => rfl
    | cons p ps => rfl

/-- A resolver whose artwork is an empty tree. -/
def c5resolve : String → ResolveResult := fun _ => .ok (.mk "svg" [] [])

set_option maxRecDepth 4000 in
/-- Counterexample to C5 as stated: with outline `[(0,0),(10,10)]` the
extents are `viewBox x = -100, width = 210`, while the second placed
component sits at grid position `(500, 0)` — outside the extents, so the
canvas is NOT expanded to contain every placed component. -/
theorem c5_counterexample :
    (positions 2).getD 1 (0, 0) = (500, 0)
    ∧ (combine_svgs [("A", "P"), ("B", "P")] (positions 2) (some [(0, 0), (10, 10)])
        c5resolve).1.viewboxX = -100
    ∧ (combine_svgs [("A", "P"), ("B", "P")] (positions 2) (some [(0, 0), (10, 10)])
        c5resolve).1.width = 210
    ∧ ¬((combine_svgs [("A", "P"), ("B", "P")] (positions 2) (some [(0, 0), (10, 10)])
          c5resolve).1.viewboxX ≤ 500
        ∧ 500 ≤ (combine_svgs [("A", "P"), ("B", "P")] (positions 2)
            (some [(0, 0), (10, 10)]) c5resolve).1.viewboxX
          + (combine_svgs [("A", "P"), ("B", "P")] (positions 2)
              (some [(0, 0), (10, 10)]) c5resolve).1.width) := by
  with_unfolding_all decide

/-! ## Claim C8: failed artwork lookup -/

lemma zip_eraseIdx : ∀ (l1 : List (String × String)) (l2 : List (ℚ × ℚ)) (i : Nat),
    l1.length = l2.length →
    (l1.eraseIdx i).zip (l2.eraseIdx i) = (l1.zip l2).eraseIdx i := by
  intro l1
  induction l1 with
  | nil =>
    intro l2 i h
    have h0 : l2 = [] := by
      cases l2 with
      | nil => rfl
      | cons x xs => simp at h
    subst h0
    simp [List.eraseIdx]
  | cons a r ih =>
    intro l2 i h
    cases l2 with
    | nil => simp at h
    | cons b s =>
      cases i with
      | zero => rfl
      | succ j =>
        show (a :: r.eraseIdx j).zip (b :: s.eraseIdx j)
          = ((a, b) :: r.zip s).eraseIdx (j + 1)
        rw [List.zip_cons_cons]
        show (a, b) :: (r.eraseIdx j).zip (s.eraseIdx j) = (a, b) :: (r.zip s).eraseIdx j
        rw [ih s j (by simpa using h)]

lemma combineLoop_skip : ∀ (pairs : List ((String × String) × (ℚ × ℚ)))
    (resolve : String → ResolveResult) (i : Nat), i < pairs.length →
    (resolve ((pairs.getD i (("", ""), (0, 0))).1.2) = .noFile
      ∨ resolve ((pairs.getD i (("", ""), (0, 0))).1.2) = .parseFail) →
    (combineLoop pairs resolve).1 = (combineLoop (pairs.eraseIdx i) resolve).1
    ∧ (resolve ((pairs.getD i (("", ""), (0, 0))).1.2) = .noFile →
        Warning.noSvg ((pairs.getD i (("", ""), (0, 0))).1.2)
          ((pairs.getD i (("", ""), (0, 0))).1.1) ∈ (combineLoop pairs resolve).2)
    ∧ (resolve ((pairs.getD i (("", ""), (0, 0))).1.2) = .parseFail →
        Warning.svgParseFailed ((pairs.getD i (("", ""), (0, 0))).1.2)
          ∈ (combineLoop pairs resolve).2) := by
  intro pairs
  induction pairs with
  | nil =>
    intro resolve i hi _
    simp at hi
  | cons c rest ih =>
    intro resolve i hi hfail
    obtain ⟨⟨name, package⟩, xy⟩ := c
    cases i with
    | zero =>
      simp only [List.getD_cons_zero] at hfail ⊢
      rcases hfail with hf | hf
      · have hloop : combineLoop (((name, package), xy) :: rest) resolve
            = ((combineLoop rest resolve).1,
               .noSvg package name :: (combineLoop rest resolve).2) := by
          rw [combineLoop_cons, hf]
        refine ⟨?_, ?_, ?_⟩
        · rw [hloop]
          rfl
        · intro _
          rw [hloop]
          simp
        · intro hpf
          rw [hf] at hpf
          exact ResolveResult.noConfusion hpf
      · have hloop : combineLoop (((name, package), xy) :: rest) resolve
            = ((combineLoop rest resolve).1,
               .svgParseFailed package :: (combineLoop rest resolve).2) := by
          rw [combineLoop_cons, hf]
        refine ⟨?_, ?_, ?_⟩
        · rw [hloop]
          rfl
        · intro hnf
          rw [hf] at hnf
          exact ResolveResult.noConfusion hnf
        · intro _
          rw [hloop]
          simp
    | succ j =>
      have hj : j < rest.length := by simpa using hi
      simp only [List.getD_cons_succ] at hfail ⊢
      obtain ⟨ih1, ih2, ih3⟩ := ih resolve j hj hfail
      have herase : (((name, package), xy) :: rest).eraseIdx (j + 1)
          = ((name, package), xy) :: rest.eraseIdx j := rfl
      rw [herase, combineLoop_cons, combineLoop_cons]
      cases hres : resolve package with
      | noFile =>
        exact ⟨ih1, fun h => List.mem_cons_of_mem _ (ih2 h),
          fun h => List.mem_cons_of_mem _ (ih3 h)⟩
      | parseFail =>
        exact ⟨ih1, fun h => List.mem_cons_of_mem _ (ih2 h),
          fun h => List.mem_cons_of_mem _ (ih3 h)⟩
      | ok sub =>
        exact ⟨congrArg (List.cons (name, (processComponent sub xy).2.childrenOf)) ih1,
          ih2, ih3⟩

/-- **C8** (amended; the final clause of the claim as stated is false): a
component whose package has no matching artwork file, or whose artwork
fails to parse, is skipped with its recorded warning (`noSvg` for a missing
file, `svgParseFailed` for a parse failure) and contributes no group, and
the remaining components' groups are exactly those obtained by deleting the
failing component AND its position entry from the loop's inputs.  They are
NOT what a rerun without the failing component would produce, because
`main` recomputes the index-based grid positions and every later component
then shifts (see the counterexample). -/
theorem c8_failing_component_skipped (comps : List (String × String)) (pos : List (ℚ × ℚ))
    (outline : Option (List (ℚ × ℚ))) (resolve : String → ResolveResult) (i : Nat)
    (hi : i < comps.length) (hlen : pos.length = comps.length)
    (hfail : resolve ((comps.getD i ("", "")).2) = .noFile
      ∨ resolve ((comps.getD i ("", "")).2) = .parseFail) :
    (combine_svgs comps pos outline resolve).1.groups
        = (combine_svgs (comps.eraseIdx i) (pos.eraseIdx i) outline resolve).1.groups
    ∧ (resolve ((comps.getD i ("", "")).2) = .noFile →
        Warning.noSvg ((comps.getD i ("", "")).2) ((comps.getD i ("", "")).1)
          ∈ (combine_svgs comps pos outline resolve).2)
    ∧ (resolve ((comps.getD i ("", "")).2) = .parseFail →
        Warning.svgParseFailed ((comps.getD i ("", "")).2)
          ∈ (combine_svgs comps pos outline resolve).2) := by
  have hzget : (comps.zip pos).getD i (("", ""), (0, 0))
      = (comps.getD i ("", ""), pos.getD i (0, 0)) := zip_getD hi (by omega)
  have hfail2 : resolve (((comps.zip pos).getD i (("", ""), (0, 0))).1.2) = .noFile
      ∨ resolve (((comps.zip pos).getD i (("", ""), (0, 0))).1.2) = .parseFail := by
    rw [hzget]
    exact hfail
  have hzi : i < (comps.zip pos).length := by
    rw [List.length_zip]
    omega
  obtain ⟨h1, h2, h3⟩ := combineLoop_skip (comps.zip pos) resolve i hzi hfail2
  have hz := zip_eraseIdx comps pos i hlen.symm
  rw [hzget] at h2 h3
  refine ⟨?_, ?_, ?_⟩
  · rw [(combine_groups comps pos outline resolve).1,
      (combine_groups (comps.eraseIdx i) (pos.eraseIdx i) outline resolve).1, hz]
    exact h1
  · intro hnf
    rw [(combine_groups comps pos outline resolve).2]
    exact h2 hnf
  · intro hpf
    rw [(combine_groups comps pos outline resolve).2]
    exact h3 hpf

/-- An artwork with one rect. -/
def c8art : XmlNode := .mk "svg" [] [.mk "rect" [("x", "0")] []]

/-- Resolver: package `GOOD` has an asset, package `UGLY` has a file that
fails to parse, any other package has no file. -/
def c8resolve : String → ResolveResult :=
  fun p => if p == "GOOD" then .ok c8art else if p == "UGLY" then .parseFail else .noFile

/-- Witness for C8: a three-component run whose first component's package
has no artwork file and whose second component's artwork fails to parse;
both are skipped with their respective warnings recorded. -/
theorem c8_failing_component_skipped_witness :
    (0 < ([("A", "BAD"), ("B", "UGLY"), ("C", "GOOD")] : List (String × String)).length)
    ∧ (1 < ([("A", "BAD"), ("B", "UGLY"), ("C", "GOOD")] : List (String × String)).length)
    ∧ (positions 3).length
        = ([("A", "BAD"), ("B", "UGLY"), ("C", "GOOD")] : List (String × String)).length
    ∧ c8resolve ((([("A", "BAD"), ("B", "UGLY"), ("C", "GOOD")]
        : List (String × String)).getD 0 ("", "")).2) = .noFile
    ∧ c8resolve ((([("A", "BAD"), ("B", "UGLY"), ("C", "GOOD")]
        : List (String × String)).getD 1 ("", "")).2) = .parseFail
    ∧ Warning.noSvg "BAD" "A"
        ∈ (combine_svgs [("A", "BAD"), ("B", "UGLY"), ("C", "GOOD")] (positions 3) none
            c8resolve).2
    ∧ Warning.svgParseFailed "UGLY"
        ∈ (combine_svgs [("A", "BAD"), ("B", "UGLY"), ("C", "GOOD")] (positions 3) none
            c8resolve).2 := by
  have h0 : 0 < ([("A", "BAD"), ("B", "UGLY"), ("C", "GOOD")]
      : List (String × String)).length := by decide
  have h1 : 1 < ([("A", "BAD"), ("B", "UGLY"), ("C", "GOOD")]
      : List (String × String)).length := by decide
  have h2 : (positions 3).length
      = ([("A", "BAD"), ("B", "UGLY"), ("C", "GOOD")] : List (String × String)).length := by
    rw [positions_length]
    rfl
  have hf0 : c8resolve ((([("A", "BAD"), ("B", "UGLY"), ("C", "GOOD")]
      : List (String × String)).getD 0 ("", "")).2) = .noFile := rfl
  have hf1 : c8resolve ((([("A", "BAD"), ("B", "UGLY"), ("C", "GOOD")]
      : List (String × String)).getD 1 ("", "")).2) = .parseFail := rfl
  exact ⟨h0, h1, h2, hf0, hf1,
    (c8_failing_component_skipped [("A", "BAD"), ("B", "UGLY"), ("C", "GOOD")]
      (positions 3) none c8resolve 0 h0 h2 (Or.inl hf0)).2.1 hf0,
    (c8_failing_component_skipped [("A", "BAD"), ("B", "UGLY"), ("C", "GOOD")]
      (positions 3) none c8resolve 1 h1 h2 (Or.inr hf1)).2.2 hf1⟩

/-- Counterexample to C8's final clause: in the full run (components
`A`(failing), `B`) the surviving component `B` keeps its original grid
offset `(500, 0)`, while a rerun without the failing component places `B`
at `(0, 0)` — so `B`'s placement group is NOT "exactly as it would be
without the failing component". -/
theorem c8_counterexample :
    ((combine_svgs [("A", "BAD"), ("B", "GOOD")] (positions 2) none c8resolve).1.groups.getD
        0 ("", [])).1 = "B"
    ∧ ((combine_svgs [("B", "GOOD")] (positions 1) none c8resolve).1.groups.getD
        0 ("", [])).1 = "B"
    ∧ ((((combine_svgs [("A", "BAD"), ("B", "GOOD")] (positions 2) none
          c8resolve).1.groups.getD 0 ("", [])).2.headD (.mk "" [] [])).attrsOf
      ≠ (((combine_svgs [("B", "GOOD")] (positions 1) none
          c8resolve).1.groups.getD 0 ("", [])).2.headD (.mk "" [] [])).attrsOf) := by
  refine ⟨?_, ?_, ?_⟩
  · with_unfolding_all rfl
  · with_unfolding_all rfl
  · with_unfolding_all decide

/-! ## Claim C9: deep copy versus in-place mutation -/

/-- **C9** (amended; the claim as stated is false): the dimension-attribute
stripping is applied to the freshly parsed artwork tree IN PLACE, before
the deep copy is taken; only the coordinate offsetting operates on the
copy.  The final state of the parsed tree is the stripped tree — with its
tag, children and all non-dimension attributes intact — not the tree as
parsed.  (No cross-component corruption arises only because every component
re-parses its artwork file; there is no cache.) -/
theorem c9_strip_happens_before_copy (sub : XmlNode) (dx dy : ℚ) :
    (processComponent sub (dx, dy)).1 = stripDims sub
    ∧ (processComponent sub (dx, dy)).2 = offsetSvg (stripDims sub) dx dy
    ∧ (stripDims sub).childrenOf = sub.childrenOf
    ∧ (stripDims sub).tagOf = sub.tagOf
    ∧ ∀ a, a ∈ (stripDims sub).attrsOf
        ↔ (a ∈ sub.attrsOf ∧ a.1 ≠ "width" ∧ a.1 ≠ "height" ∧ a.1 ≠ "viewBox") := by
  refine ⟨rfl, rfl, rfl, rfl, ?_⟩
  intro a
  simp only [stripDims, XmlNode.attrsOf, popKey, List.mem_filter, Bool.not_eq_true',
    beq_eq_false_iff_ne]
  tauto

/-- A parsed artwork with dimension attributes. -/
def c9art : XmlNode := .mk "svg" [("width", "10"), ("height", "20")] [.mk "rect" [("x", "1")] []]

/-- Counterexample to C9 as stated: after processing one component the
parsed artwork tree differs from its original value — its `width`/`height`
attributes were popped in place before the deep copy. -/
theorem c9_counterexample : (processComponent c9art (0, 0)).1 ≠ c9art := by
  intro h
  have h2 := congrArg XmlNode.attrsOf h
  revert h2
  with_unfolding_all decide

end Brd2Svg
